import Mathlib

/-!
Verification of the ESP8266 flasher core (`src/esp8266.cc`) of the
mongoose-flashing-tool repository.  The C++ code is shallowly embedded:
bytes are `Nat`s below 256, `QByteArray` is `List Nat`, the ordered
`QMap<ulong, Image>` is a sorted association list `List (Nat × Image)`,
`util::Status` / `util::StatusOr<T>` become a `Status` structure and
`Except Status T`, and 32-bit overflow is made explicit with `% 2^32`.
Cryptographic hashes (MD5, SHA-1) and the flasher-stub digest queries are
abstract function parameters.
-/

namespace ESP8266

/-- Error codes of `util::Status` (`common/util/error_codes.h`). -/
inductive ErrorCode where
  | OK
  | INVALID_ARGUMENT
  | FAILED_PRECONDITION
  | NOT_FOUND
  | UNAVAILABLE
  | UNKNOWN
  | DATA_LOSS
  deriving DecidableEq, Repr

/-- `util::Status`: an error code together with a human-readable message. -/
structure Status where
  code : ErrorCode
  msg : String
  deriving DecidableEq, Repr

instance exceptDecEq {ε α : Type} [DecidableEq ε] [DecidableEq α] :
    DecidableEq (Except ε α) := fun x y =>
  match x, y with
  | .ok a, .ok b =>
    if h : a = b then isTrue (by rw [h])
    else isFalse (fun hc => by cases hc; exact h rfl)
  | .error a, .error b =>
    if h : a = b then isTrue (by rw [h])
    else isFalse (fun hc => by cases hc; exact h rfl)
  | .ok _, .error _ => isFalse (fun hc => by cases hc)
  | .error _, .ok _ => isFalse (fun hc => by cases hc)

/-- `QS(code, msg)` from `status_qt.h`: build a status from code and message. -/
def QS (code : ErrorCode) (msg : String) : Status := ⟨code, msg⟩

/-- Modelled from the spec: `QSP(msg, status)` (`status_qt.h`, not under `src/`)
wraps an inner status with a context message, preserving the error code —
the spec's propagation policy says the inner error "surfaces immediately". -/
def QSP (msg : String) (st : Status) : Status := ⟨st.code, msg ++ ": " ++ st.msg⟩

/-- Hex rendering used by `QString::arg(x, 0, 16)`: lowercase, no prefix. -/
def hexStr (n : Nat) : String := String.mk (Nat.toDigits 16 n)

/-- `struct Image` of `FlasherImpl`: flash address, contents and the
part's attribute map (modelled as a string-to-string association list;
only the `"type"` key is ever consulted by the flasher). -/
structure Image where
  addr : Nat
  data : List Nat
  attrs : List (String × String)
  deriving DecidableEq, Repr

/-- `image.attrs["type"]` compared as a string; an absent key behaves as
the null `QVariant`, which converts to the empty string. -/
def Image.attrType (img : Image) : String :=
  match img.attrs.lookup "type" with
  | some t => t
  | none => ""

/-- Lookup in the ordered map `QMap<ulong, Image>` (`contains` / `operator[]`).
First matching key wins; keys of a well-formed map are unique. -/
def mapLookup {α : Type} (k : Nat) : List (Nat × α) → Option α
  | [] => none
  | (k', v) :: rest => if k = k' then some v else mapLookup k rest

/-- Insertion `m[k] = v` into the ordered map: keeps keys ascending,
replaces the value if the key is already present. -/
def mapInsert {α : Type} (k : Nat) (v : α) : List (Nat × α) → List (Nat × α)
  | [] => [(k, v)]
  | (k', v') :: rest =>
    if k < k' then (k, v) :: (k', v') :: rest
    else if k = k' then (k, v) :: rest
    else (k', v') :: mapInsert k v rest

/-- `m.erase(it)` for the entry with key `k`: removes the first such entry. -/
def mapErase {α : Type} (k : Nat) : List (Nat × α) → List (Nat × α)
  | [] => []
  | (k', v') :: rest => if k = k' then rest else (k', v') :: mapErase k rest

/-- Keys of the map, in storage order. -/
def mapKeys {α : Type} (m : List (Nat × α)) : List Nat := m.map Prod.fst

/-! ## Flash-params tables and parsing (`esp8266.cc`, bottom of the file) -/

/-- `flashMode`: mode name → mode id. -/
def flashMode : List (String × Nat) :=
  [("qio", 0), ("qout", 1), ("dio", 2), ("dout", 3)]

/-- `flashSize`: size name (megabits) → size id. -/
def flashSizeTable : List (String × Nat) :=
  [("4m", 0), ("2m", 1), ("8m", 2), ("16m", 3), ("32m", 4),
   ("16m-c1", 5), ("32m-c1", 6), ("32m-c2", 7)]

/-- `flashSizeById`: size id → flash size in bytes. -/
def flashSizeById : List (Nat × Nat) :=
  [(0, 524288), (1, 262144), (2, 1048576), (3, 2097152),
   (4, 4194304), (5, 2097152), (6, 4194304), (7, 4194304)]

/-- `flashFreq`: frequency name → frequency id. -/
def flashFreq : List (String × Nat) :=
  [("40m", 0), ("26m", 1), ("20m", 2), ("80m", 0xf)]

/-- `QString::split(',')`: split a character list at every comma;
the empty input yields one empty field. -/
def splitCommaChars : List Char → List (List Char)
  | [] => [[]]
  | c :: rest =>
    match splitCommaChars rest with
    | [] => [[]]
    | g :: gs => if c = ',' then [] :: g :: gs else (c :: g) :: gs

/-- Fields of `s.split(',')` as strings. -/
def splitComma (s : String) : List String :=
  (splitCommaChars s.data).map String.mk

/-- Numeric value of a digit character under the given base, if valid. -/
def digitVal (base : Nat) (c : Char) : Option Nat :=
  let v :=
    if '0' ≤ c ∧ c ≤ '9' then some (c.toNat - '0'.toNat)
    else if 'a' ≤ c ∧ c ≤ 'f' then some (c.toNat - 'a'.toNat + 10)
    else if 'A' ≤ c ∧ c ≤ 'F' then some (c.toNat - 'A'.toNat + 10)
    else none
  match v with
  | some d => if d < base then some d else none
  | none => none

/-- Accumulate digits of the given base; fails on a non-digit or an
empty digit string. -/
def parseDigits (base : Nat) (cs : List Char) : Option Nat :=
  match cs with
  | [] => none
  | _ =>
    cs.foldl
      (fun acc c =>
        match acc, digitVal base c with
        | some a, some d => some (a * base + d)
        | _, _ => none)
      (some 0)

/-- Strip leading and trailing whitespace from a character list. -/
def trimChars (cs : List Char) : List Char :=
  ((cs.dropWhile Char.isWhitespace).reverse.dropWhile Char.isWhitespace).reverse

/-- `QString::toInt(&ok, 0)`: C-convention integer parsing — optional
sign, then `0x`/`0X` hex, leading-`0` octal or decimal digits; the value
must fit in a signed 32-bit int.  Surrounding whitespace is tolerated. -/
def parseQInt (s : String) : Option Int :=
  let cs := trimChars s.data
  let (neg, cs) :=
    match cs with
    | '-' :: rest => (true, rest)
    | '+' :: rest => (false, rest)
    | _ => (false, cs)
  let mag : Option Nat :=
    match cs with
    | '0' :: 'x' :: rest => parseDigits 16 rest
    | '0' :: 'X' :: rest => parseDigits 16 rest
    | '0' :: rest => if rest = [] then some 0 else parseDigits 8 rest
    | _ => parseDigits 10 cs
  match mag with
  | none => none
  | some m =>
    let v : Int := if neg then -(m : Int) else (m : Int)
    if -(2 ^ 31) ≤ v ∧ v < 2 ^ 31 then some v else none

/-- `flashParamsFromString` (`esp8266.cc`): a single numeric literal
yields its low 16 bits; a `mode,size,freq` triple of recognized names
yields `(mode << 8) | (size << 4) | freq`; anything else is
`INVALID_ARGUMENT`. -/
def flashParamsFromString (s : String) : Except Status Nat :=
  let parts := splitComma s
  match parts with
  | [_] =>
    match parseQInt s with
    | none => .error (QS .INVALID_ARGUMENT "invalid number")
    | some r => .ok ((r % 65536).toNat)
  | [p0, p1, p2] =>
    match flashMode.lookup p0 with
    | none => .error (QS .INVALID_ARGUMENT "invalid flash mode")
    | some m =>
      match flashSizeTable.lookup p1 with
      | none => .error (QS .INVALID_ARGUMENT "invalid flash size")
      | some sz =>
        match flashFreq.lookup p2 with
        | none => .error (QS .INVALID_ARGUMENT "invalid flash frequency")
        | some f => .ok ((m <<< 8) ||| (sz <<< 4) ||| f)
  | _ =>
    .error (QS .INVALID_ARGUMENT
      "must be either a number or a comma-separated list of three items")

/-- `flashSizeFromParams` (`esp8266.cc`): extract the size id from bits
4..7 of the params word and look it up in `flashSizeById`. -/
def flashSizeFromParams (flashParams : Nat) : Except Status Nat :=
  let flashSizeId := (flashParams &&& 0xff) >>> 4
  match flashSizeById.lookup flashSizeId with
  | none => .error (QS .INVALID_ARGUMENT "invalid flash size id")
  | some b => .ok b

/-! ## Constants of the flasher (`esp8266.cc`, `esp_flasher_client.h`) -/

/-- `ESPFlasherClient::kFlashSectorSize`. -/
def kFlashSectorSize : Nat := 4096

/-- `ESPFlasherClient::kFlashBlockSize`. -/
def kFlashBlockSize : Nat := 65536

/-- `kSystemParamsAreaSize`: last 16K of flash are reserved. -/
def kSystemParamsAreaSize : Nat := 16 * 1024

/-- `kSystemParamsPartType`. -/
def kSystemParamsPartType : String := "sys_params"

/-- `2^32`: modulus of the C++ `quint32` arithmetic. -/
def kU32 : Nat := 4294967296

/-! ## `FlasherImpl::totalBytes` -/

/-- The fields of `FlasherImpl` that `totalBytes` and its claim read. -/
structure FlasherState where
  images : List (Nat × Image)
  merge_flash_filesystem : Bool
  spiffs_offset : Nat
  spiffs_size : Nat

/-- `FlasherImpl::totalBytes`: sum of all images' data lengths; when
filesystem merging is on and an image sits at the SPIFFS offset, its
data length is added once more (the file system is also read). -/
def totalBytes (st : FlasherState) : Nat :=
  let r := (st.images.map (fun e => e.2.data.length)).sum
  if st.merge_flash_filesystem then
    match mapLookup st.spiffs_offset st.images with
    | some image => r + image.data.length
    | none => r
  else r

/-! ## `FlasherImpl::adjustSysParamsLocation` -/

/-- `FlasherImpl::adjustSysParamsLocation`: walk the image map in
ascending key order; the first image whose `attrs["type"]` is
`"sys_params"` and whose `addr` differs from `flashSize - 16384` is
erased and re-inserted at that address (overwriting any entry there);
images of that type already in place are left alone. -/
def adjustSysParamsLocation (flashSize : Nat) (images : List (Nat × Image)) :
    List (Nat × Image) :=
  let systemParamsBegin := (flashSize + (kU32 - kSystemParamsAreaSize)) % kU32
  match images.find?
      (fun e => decide (e.2.attrType = kSystemParamsPartType ∧ e.2.addr ≠ systemParamsBegin)) with
  | none => images
  | some (k, image) =>
    mapInsert systemParamsBegin { image with addr := systemParamsBegin } (mapErase k images)

/-! ## `FlasherImpl::sanityCheckImages` -/

/-- The loop body of `sanityCheckImages`, with the previous image's
`(begin, end)` pair threaded through for the adjacent-overlap check.
All quantities are reduced mod `2^32` exactly where the C++ `quint32`
arithmetic would truncate. -/
def sanityCheckGo (flashSize flashSectorSize : Nat) :
    Option (Nat × Nat) → List (Nat × Image) → Except Status Unit
  | _, [] => .ok ()
  | prev, (k, image) :: rest =>
    let data := image.data
    let imageBegin := k % kU32
    let imageEnd := (imageBegin + data.length) % kU32
    if flashSize ≤ imageBegin ∨ flashSize < imageEnd then
      .error (QS .INVALID_ARGUMENT
        ("Image " ++ toString data.length ++ " @ 0x" ++ hexStr imageBegin ++
         " will not fit in flash (size " ++ toString flashSize ++ ")"))
    else if imageBegin % flashSectorSize ≠ 0 then
      .error (QS .INVALID_ARGUMENT
        ("Image starting address (0x" ++ hexStr imageBegin ++
         ") is not on flash sector boundary (sector size " ++
         toString flashSectorSize ++ ")"))
    else if imageBegin = 0 ∧ 1 ≤ data.length ∧ data.headI ≠ 0xE9 then
      .error (QS .INVALID_ARGUMENT "Invalid magic byte in the first image")
    else
      let systemParamsBegin := (flashSize + (kU32 - kSystemParamsAreaSize)) % kU32
      let systemParamsEnd := flashSize
      if ¬(imageBegin = systemParamsBegin ∧ image.attrType = kSystemParamsPartType) ∧
          (imageBegin < systemParamsEnd ∧ systemParamsBegin < imageEnd) then
        .error (QS .INVALID_ARGUMENT
          ("Image 0x" ++ hexStr imageBegin ++ " overlaps with system params area (" ++
           toString kSystemParamsAreaSize ++ " @ 0x" ++ hexStr systemParamsBegin ++ ")"))
      else
        match prev with
        | some (prevImageBegin, prevImageEnd) =>
          if imageBegin < prevImageEnd then
            .error (QS .INVALID_ARGUMENT
              ("Images at offsets 0x" ++ hexStr prevImageBegin ++ " and 0x" ++
               hexStr imageBegin ++ " overlap."))
          else sanityCheckGo flashSize flashSectorSize (some (imageBegin, imageEnd)) rest
        | none => sanityCheckGo flashSize flashSectorSize (some (imageBegin, imageEnd)) rest

/-- `FlasherImpl::sanityCheckImages(flashSize, flashSectorSize)` over the
ordered image map. -/
def sanityCheckImages (flashSize flashSectorSize : Nat)
    (images : List (Nat × Image)) : Except Status Unit :=
  sanityCheckGo flashSize flashSectorSize none images

/-- Two map entries' byte ranges `[addr, addr+len)` intersect. -/
def rangesOverlap (a b : Nat × Image) : Prop :=
  max a.1 b.1 < min (a.1 + a.2.data.length) (b.1 + b.2.data.length)

/-- `n` zero bytes (filler data for concrete scenarios). -/
def padBytes (n : Nat) : List Nat := List.replicate n 0

theorem padBytes_length (n : Nat) : (padBytes n).length = n :=
  List.length_replicate n 0

/-! ## The flash-params patch of `FlasherImpl::runLocked` (lines 369-386) -/

/-- The `tr("dio,%1m,40m").arg(flashSize * 8 / 1048576)` format string. -/
def defaultParamsString (flashSize : Nat) : String :=
  "dio," ++ toString (flashSize * 8 / 1048576) ++ "m,40m"

/-- The flash-params patch step of `runLocked`: if an image sits at
address 0 with at least 4 bytes, bytes [2] and [3] are overwritten with
the big-endian flash-params word — the user override if one was set,
otherwise `dio,<size>m,40m` for the detected flash size clamped to
4 MiB.  `none` models the `ValueOrDie()` abort on an unparsable derived
size. -/
def patchFlashParams (images : List (Nat × Image))
    (overrideFlashParams : Option Nat) (flashSize : Nat) :
    Option (List (Nat × Image)) :=
  match mapLookup 0 images with
  | none => some images
  | some image =>
    if 4 ≤ image.data.length then
      let flashParamsRes : Option Nat :=
        match overrideFlashParams with
        | some p => some p
        | none =>
          let fs := if 4194304 < flashSize then 4194304 else flashSize
          match flashParamsFromString (defaultParamsString fs) with
          | .ok p => some p
          | .error _ => none
      match flashParamsRes with
      | none => none
      | some flashParams =>
        some (mapInsert 0
          { image with
            data := (image.data.set 2 ((flashParams >>> 8) &&& 0xff)).set 3
                      (flashParams &&& 0xff) } images)
    else some images

/-! ## `FlasherImpl::dedupImages` -/

/-- `ESPFlasherClient::DigestResult`: overall MD5 plus per-block MD5s. -/
structure DigestResult where
  digest : List Nat
  blockDigests : List (List Nat)
  deriving DecidableEq, Repr

/-- `numBlocks = (data.length() + kFlashSectorSize - 1) / kFlashSectorSize`. -/
def numBlocks (len : Nat) : Nat := (len + kFlashSectorSize - 1) / kFlashSectorSize

/-- Byte length of sector `i` of an image of `len` bytes (the loop's
`len` variable: a full sector, truncated at the image's end). -/
def sectorLen (len i : Nat) : Nat := min kFlashSectorSize (len - i * kFlashSectorSize)

/-- The local state of the sector walk in `dedupImages`:
`newAddr`/`newLen` describe the run of differing sectors being built,
`newImageSize` counts all differing bytes, `newImages` holds the
finished sub-images (a `QMap` populated in ascending order). -/
structure ScanSt where
  newAddr : Nat
  newLen : Nat
  newImageSize : Nat
  newImages : List (Nat × Image)
  deriving DecidableEq, Repr

/-- A flushed sub-image: `newImage.addr = newAddr`,
`newImage.data = data.mid(newAddr - addr, newLen)`, other fields copied. -/
def subImage (image : Image) (addr : Nat) (data : List Nat)
    (newAddr newLen : Nat) : Nat × Image :=
  (newAddr, { image with
              addr := newAddr
              data := (data.drop (newAddr - addr)).take newLen })

/-- One iteration of the sector loop of `dedupImages`: a matching sector
flushes the pending run; a differing one starts or extends it. -/
def scanStep (md5 : List Nat → List Nat) (blockDigests : List (List Nat))
    (addr : Nat) (data : List Nat) (image : Image) (st : ScanSt) (i : Nat) : ScanSt :=
  let offset := i * kFlashSectorSize
  let len := min kFlashSectorSize (data.length - offset)
  let hash := md5 ((data.drop offset).take len)
  if blockDigests.getD i [] = hash then
    if 0 < st.newLen then
      { st with
        newImages := st.newImages ++ [subImage image addr data st.newAddr st.newLen]
        newLen := 0 }
    else st
  else
    { st with
      newAddr := if st.newLen = 0 then addr + i * kFlashSectorSize else st.newAddr
      newLen := st.newLen + len
      newImageSize := st.newImageSize + len }

/-- The per-image body of `dedupImages`: walk all sectors, flush the
last pending run, and keep the fragments only if at least
`kFlashBlockSize` bytes were skipped; otherwise keep the whole image. -/
def dedupImage (md5 : List Nat → List Nat) (blockDigests : List (List Nat))
    (addr : Nat) (image : Image) : List (Nat × Image) :=
  let data := image.data
  let st := (List.range (numBlocks data.length)).foldl
      (scanStep md5 blockDigests addr data image) ⟨addr, 0, 0, []⟩
  let newImages :=
    if 0 < st.newLen then
      st.newImages ++ [subImage image addr data st.newAddr st.newLen]
    else st.newImages
  if kFlashBlockSize ≤ data.length - st.newImageSize then newImages
  else [(addr, image)]

/-- The image loop of `dedupImages`; `none` records that some digest
query failed (C++ then returns `images_` unchanged). -/
def dedupLoop (digestFn : Nat → Nat → Nat → Except Status DigestResult)
    (md5 : List Nat → List Nat) : List (Nat × Image) → Option (List (Nat × Image))
  | [] => some []
  | (addr, image) :: rest =>
    match digestFn addr image.data.length kFlashSectorSize with
    | .error _ => none
    | .ok dr =>
      match dedupLoop digestFn md5 rest with
      | none => none
      | some acc => some (dedupImage md5 dr.blockDigests addr image ++ acc)

/-- `FlasherImpl::dedupImages`, parametrized by the stub's digest query
`fc->digest(addr, len, blockSize)` and the host MD5. -/
def dedupImages (digestFn : Nat → Nat → Nat → Except Status DigestResult)
    (md5 : List Nat → List Nat) (images : List (Nat × Image)) : List (Nat × Image) :=
  match dedupLoop digestFn md5 images with
  | none => images
  | some result => result

/-- Does the device's digest of sector `i` equal the image's own MD5 of
that sector?  (The skip criterion of the dedup loop.) -/
def sectorMatches (md5 : List Nat → List Nat) (blockDigests : List (List Nat))
    (data : List Nat) (i : Nat) : Bool :=
  decide (blockDigests.getD i [] =
    md5 ((data.drop (i * kFlashSectorSize)).take (sectorLen data.length i)))

/-- Modelled from the spec: the maximal ascending contiguous runs
`(start, stop)` of sector indices below `n` that are *not* skipped
("contiguous runs of differing sectors become new sub-images"), most
recent run first. -/
def specRunsRev (f : Nat → Bool) : Nat → List (Nat × Nat)
  | 0 => []
  | n + 1 =>
    let r := specRunsRev f n
    if f n then r
    else
      match r with
      | (s, e) :: rest =>
        if e = n then (s, n + 1) :: rest else (n, n + 1) :: (s, e) :: rest
      | [] => [(n, n + 1)]

/-- Modelled from the spec: the runs of differing sectors in ascending
order. -/
def specRuns (f : Nat → Bool) (n : Nat) : List (Nat × Nat) :=
  (specRunsRev f n).reverse

/-- Total byte length of sectors `s ≤ i < e` of an image of `len` bytes. -/
def runBytes (len s e : Nat) : Nat := ∑ i ∈ Finset.Ico s e, sectorLen len i

/-- The sub-image a run `(s, e)` of differing sectors becomes: it starts
at `addr + s·4096` and carries exactly the bytes of those sectors. -/
def runImage (addr : Nat) (image : Image) (r : Nat × Nat) : Nat × Image :=
  (addr + r.1 * kFlashSectorSize,
   { image with
     addr := addr + r.1 * kFlashSectorSize
     data := (image.data.drop (r.1 * kFlashSectorSize)).take
               (runBytes image.data.length r.1 r.2) })

/-- The state of the sector walk of `dedupImages` after its first `n`
iterations (the `foldl` prefix of `dedupImage`). -/
def scanState (md5 : List Nat → List Nat) (bd : List (List Nat))
    (addr : Nat) (image : Image) (n : Nat) : ScanSt :=
  (List.range n).foldl (scanStep md5 bd addr image.data image) ⟨addr, 0, 0, []⟩

/-! ## `FlasherImpl::verifyImages` -/

/-- `FlasherImpl::verifyImages`: for every original image, query the
stub for the overall digest of its range and compare with the host MD5
of the in-memory data; the first query failure or mismatch aborts. -/
def verifyImages (digestFn : Nat → Nat → Nat → Except Status DigestResult)
    (md5 : List Nat → List Nat) : List (Nat × Image) → Except Status Unit
  | [] => .ok ()
  | (_, image) :: rest =>
    let addr := image.addr
    let data := image.data
    match digestFn addr data.length 0 with
    | .error st =>
      .error (QSP ("failed to compute digest of " ++ toString data.length ++
                   " @ 0x" ++ hexStr addr) st)
    | .ok dr =>
      if md5 data ≠ dr.digest then
        .error (QS .DATA_LOSS ("digest mismatch for image 0x" ++ hexStr addr))
      else verifyImages digestFn md5 rest

/-! ## `makeIDBlock` -/

/-- `makeIDBlock(domain)`: one device ID is generated, and the returned
block is its SHA-1 digest, followed by the ID itself, followed by a
single NUL byte.  `randomDeviceID` (defined in `fs.cc`) and SHA-1 are
abstract parameters. -/
def makeIDBlock (sha1 : List Nat → List Nat) (randomDeviceID : String → List Nat)
    (domain : String) : List Nat :=
  let data := randomDeviceID domain
  sha1 data ++ data ++ [0]

/-! ## Helper lemmas about the ordered-map operations -/

theorem mapLookup_mapInsert_self {α : Type} (k : Nat) (v : α) (m : List (Nat × α)) :
    mapLookup k (mapInsert k v m) = some v := by
  induction m with
  | nil => simp [mapInsert, mapLookup]
  | cons e rest ih =>
    obtain ⟨k', v'⟩ := e
    by_cases h1 : k < k'
    · simp [mapInsert, h1, mapLookup]
    · by_cases h2 : k = k' <;> simp [mapInsert, h1, h2, mapLookup, ih]

theorem mapLookup_mapInsert_ne {α : Type} (k k' : Nat) (v : α) (m : List (Nat × α))
    (h : k' ≠ k) : mapLookup k' (mapInsert k v m) = mapLookup k' m := by
  induction m with
  | nil => simp [mapInsert, mapLookup, h]
  | cons e rest ih =>
    obtain ⟨k'', v''⟩ := e
    by_cases h1 : k < k''
    · simp [mapInsert, h1, mapLookup, h]
    · by_cases h2 : k = k''
      · subst h2; simp [mapInsert, h1, mapLookup, h]
      · simp [mapInsert, h1, h2, mapLookup, ih]

theorem mapErase_sublist {α : Type} (k : Nat) (m : List (Nat × α)) :
    (mapErase k m).Sublist m := by
  induction m with
  | nil => simp [mapErase]
  | cons e rest ih =>
    obtain ⟨k', v'⟩ := e
    by_cases h : k = k'
    · simp [mapErase, h]
    · simpa [mapErase, h] using ih.cons₂ (k', v')

theorem mapKeys_mapInsert_mem {α : Type} (k : Nat) (v : α) (m : List (Nat × α)) :
    ∀ x ∈ mapKeys (mapInsert k v m), x = k ∨ x ∈ mapKeys m := by
  induction m with
  | nil =>
    intro x hx
    simp only [mapInsert, mapKeys, List.map_cons, List.map_nil,
      List.mem_singleton] at hx
    exact Or.inl hx
  | cons e rest ih =>
    obtain ⟨k', v'⟩ := e
    intro x hx
    simp only [mapKeys, List.map_cons, List.mem_cons]
    by_cases h1 : k < k'
    · simp only [mapInsert, if_pos h1, mapKeys, List.map_cons, List.mem_cons] at hx
      tauto
    · by_cases h2 : k = k'
      · subst h2
        simp only [mapInsert, if_neg h1, ite_self, if_pos, mapKeys,
          List.map_cons, List.mem_cons, eq_self_iff_true, ite_true] at hx
        tauto
      · simp only [mapInsert, if_neg h1, if_neg h2, mapKeys, List.map_cons,
          List.mem_cons] at hx
        rcases hx with rfl | hx
        · tauto
        · rcases ih x hx with rfl | hx' <;> tauto

theorem sorted_mapInsert {α : Type} (k : Nat) (v : α) (m : List (Nat × α))
    (h : (mapKeys m).Pairwise (· < ·)) :
    (mapKeys (mapInsert k v m)).Pairwise (· < ·) := by
  induction m with
  | nil => simp [mapInsert, mapKeys]
  | cons e rest ih =>
    obtain ⟨k', v'⟩ := e
    simp only [mapKeys, List.map_cons, List.pairwise_cons] at h
    obtain ⟨hk', hrest⟩ := h
    by_cases h1 : k < k'
    · simp only [mapInsert, if_pos h1, mapKeys, List.map_cons, List.pairwise_cons]
      refine ⟨?_, hk', hrest⟩
      intro a ha
      simp only [List.mem_cons] at ha
      rcases ha with rfl | ha
      · exact h1
      · exact lt_trans h1 (hk' a ha)
    · by_cases h2 : k = k'
      · subst h2
        simp only [mapInsert, if_neg h1, mapKeys, List.map_cons,
          List.pairwise_cons, eq_self_iff_true, ite_true]
        exact ⟨hk', hrest⟩
      · simp only [mapInsert, if_neg h1, if_neg h2, mapKeys, List.map_cons,
          List.pairwise_cons]
        refine ⟨fun a ha => ?_, ih hrest⟩
        rcases mapKeys_mapInsert_mem k v rest a ha with rfl | ha'
        · omega
        · exact hk' a ha'

theorem sorted_mapErase {α : Type} (k : Nat) (m : List (Nat × α))
    (h : (mapKeys m).Pairwise (· < ·)) :
    (mapKeys (mapErase k m)).Pairwise (· < ·) :=
  List.Pairwise.sublist (List.Sublist.map Prod.fst (mapErase_sublist k m)) h

theorem mapLookup_of_mem_sorted {α : Type} (m : List (Nat × α))
    (h : (mapKeys m).Pairwise (· < ·)) :
    ∀ e ∈ m, mapLookup e.1 m = some e.2 := by
  induction m with
  | nil => simp
  | cons e' rest ih =>
    obtain ⟨k', v'⟩ := e'
    simp only [mapKeys, List.map_cons, List.pairwise_cons] at h
    intro e he
    simp only [List.mem_cons] at he
    rcases he with rfl | he
    · simp [mapLookup]
    · have hne : e.1 ≠ k' := by
        have := h.1 e.1 (List.mem_map_of_mem Prod.fst he)
        omega
      simpa [mapLookup, hne] using ih h.2 e he

theorem chain'_rel_head {α : Type} {R : α → α → Prop}
    (tr : ∀ a b c, R a b → R b c → R a c) :
    ∀ (l : List α) (a : α), List.Chain' R (a :: l) → ∀ b ∈ l, R a b := by
  intro l
  induction l with
  | nil => intro a _ b hb; cases hb
  | cons c l' ih =>
    intro a hc b hb
    rw [List.chain'_cons] at hc
    rcases List.mem_cons.mp hb with rfl | hb
    · exact hc.1
    · exact tr a c b hc.1 (ih c hc.2 b hb)

theorem chain'_pairwise_of_trans {α : Type} {R : α → α → Prop}
    (tr : ∀ a b c, R a b → R b c → R a c) :
    ∀ {l : List α}, List.Chain' R l → List.Pairwise R l := by
  intro l
  induction l with
  | nil => intro _; exact List.Pairwise.nil
  | cons a rest ih =>
    intro hc
    exact List.pairwise_cons.mpr ⟨chain'_rel_head tr rest a hc, ih hc.tail⟩

/-! ## Claim theorems -/

/-- **C6.** `flashParamsFromString`: every recognized `mode,size,freq`
triple yields the packed word `(mode << 8) | (size << 4) | freq` — both
over the enumerations and over any string splitting into three
recognized fields (so `"dio,4m,40m"` yields `0x0200`); *every* string
splitting into a single field whose numeric parse succeeds yields the
low 16 bits of the parsed number (so `"0x1234"` yields `0x1234` and
`"0x12345"` yields `0x2345`); *any* triple with an unrecognized mode,
size or frequency component, *any* single field that does not parse as
a number, and *any* other comma count are `INVALID_ARGUMENT`, each with
its error message. -/
theorem C6_flashParamsFromString_spec :
    (∀ p ∈ flashMode, ∀ q ∈ flashSizeTable, ∀ r ∈ flashFreq,
      flashParamsFromString (p.1 ++ "," ++ q.1 ++ "," ++ r.1) =
        .ok ((p.2 <<< 8) ||| (q.2 <<< 4) ||| r.2)) ∧
    (∀ s p0 p1 p2 m sz f, splitComma s = [p0, p1, p2] →
      flashMode.lookup p0 = some m → flashSizeTable.lookup p1 = some sz →
      flashFreq.lookup p2 = some f →
      flashParamsFromString s = .ok ((m <<< 8) ||| (sz <<< 4) ||| f)) ∧
    flashParamsFromString "dio,4m,40m" = .ok 0x0200 ∧
    (∀ s v, (splitComma s).length = 1 → parseQInt s = some v →
      flashParamsFromString s = .ok ((v % 65536).toNat)) ∧
    flashParamsFromString "0x1234" = .ok 0x1234 ∧
    flashParamsFromString "0x12345" = .ok 0x2345 ∧
    (∀ s p0 p1 p2, splitComma s = [p0, p1, p2] →
      flashMode.lookup p0 = none →
      flashParamsFromString s =
        .error (QS .INVALID_ARGUMENT "invalid flash mode")) ∧
    (∀ s p0 p1 p2 m, splitComma s = [p0, p1, p2] →
      flashMode.lookup p0 = some m → flashSizeTable.lookup p1 = none →
      flashParamsFromString s =
        .error (QS .INVALID_ARGUMENT "invalid flash size")) ∧
    (∀ s p0 p1 p2 m sz, splitComma s = [p0, p1, p2] →
      flashMode.lookup p0 = some m → flashSizeTable.lookup p1 = some sz →
      flashFreq.lookup p2 = none →
      flashParamsFromString s =
        .error (QS .INVALID_ARGUMENT "invalid flash frequency")) ∧
    flashParamsFromString "bad,4m,40m" =
      .error (QS .INVALID_ARGUMENT "invalid flash mode") ∧
    flashParamsFromString "qio,bad,40m" =
      .error (QS .INVALID_ARGUMENT "invalid flash size") ∧
    flashParamsFromString "dio,4m,bad" =
      .error (QS .INVALID_ARGUMENT "invalid flash frequency") ∧
    (∀ s, (splitComma s).length = 1 → parseQInt s = none →
      flashParamsFromString s =
        .error (QS .INVALID_ARGUMENT "invalid number")) ∧
    flashParamsFromString "zzz" = .error (QS .INVALID_ARGUMENT "invalid number") ∧
    (∀ s, (splitComma s).length ≠ 1 → (splitComma s).length ≠ 3 →
      flashParamsFromString s =
        .error (QS .INVALID_ARGUMENT
          "must be either a number or a comma-separated list of three items")) ∧
    flashParamsFromString "a,b" =
      .error (QS .INVALID_ARGUMENT
        "must be either a number or a comma-separated list of three items") ∧
    flashParamsFromString "a,b,c,d" =
      .error (QS .INVALID_ARGUMENT
        "must be either a number or a comma-separated list of three items") := by
  refine ⟨by decide, ?_, by decide, ?_, by decide, by decide, ?_, ?_, ?_,
    by decide, by decide, by decide, ?_, by decide, ?_, by decide, by decide⟩
  · intro s p0 p1 p2 m sz f hsplit hm hsz hf
    simp only [flashParamsFromString, hsplit, hm, hsz, hf]
  · intro s v h1 hp
    rcases hsplit : splitComma s with _ | ⟨p, _ | ⟨q, rest⟩⟩
    · rw [hsplit] at h1
      simp at h1
    · simp only [flashParamsFromString, hsplit, hp]
    · rw [hsplit] at h1
      simp at h1
  · intro s p0 p1 p2 hsplit hm
    simp only [flashParamsFromString, hsplit, hm]
  · intro s p0 p1 p2 m hsplit hm hsz
    simp only [flashParamsFromString, hsplit, hm, hsz]
  · intro s p0 p1 p2 m sz hsplit hm hsz hf
    simp only [flashParamsFromString, hsplit, hm, hsz, hf]
  · intro s h1 hp
    rcases hsplit : splitComma s with _ | ⟨p, _ | ⟨q, rest⟩⟩
    · rw [hsplit] at h1
      simp at h1
    · simp only [flashParamsFromString, hsplit, hp]
    · rw [hsplit] at h1
      simp at h1
  · intro s h1 h3
    rcases hsplit : splitComma s with _ | ⟨p, _ | ⟨q, _ | ⟨r, _ | ⟨t, rest⟩⟩⟩⟩
    · simp only [flashParamsFromString, hsplit]
    · rw [hsplit] at h1
      simp at h1
    · simp only [flashParamsFromString, hsplit]
    · rw [hsplit] at h3
      simp at h3
    · simp only [flashParamsFromString, hsplit]

/-- Witness for C6 at a concrete recognized triple. -/
theorem C6_flashParamsFromString_spec_witness :
    flashParamsFromString "dout,16m-c1,80m" = .ok ((3 <<< 8) ||| (5 <<< 4) ||| 0xf) :=
  C6_flashParamsFromString_spec.1 ("dout", 3) (by decide) ("16m-c1", 5) (by decide)
    ("80m", 0xf) (by decide)

/-- **C7.** Size round-trip: for every legal `(mode, size, freq)` from the
enumerations, `flashSizeFromParams` of the packed word returns exactly the
byte count `flashSizeById` maps the size id to, and that table reads
`0→524288, 1→262144, 2→1048576, 3→2097152, 4→4194304, 5→2097152,
6→4194304, 7→4194304`. -/
theorem C7_flashSizeFromParams_roundTrip :
    (∀ p ∈ flashMode, ∀ q ∈ flashSizeTable, ∀ r ∈ flashFreq,
      ∀ b, flashSizeById.lookup q.2 = some b →
        flashSizeFromParams ((p.2 <<< 8) ||| (q.2 <<< 4) ||| r.2) = .ok b) ∧
    flashSizeById.lookup 0 = some 524288 ∧
    flashSizeById.lookup 1 = some 262144 ∧
    flashSizeById.lookup 2 = some 1048576 ∧
    flashSizeById.lookup 3 = some 2097152 ∧
    flashSizeById.lookup 4 = some 4194304 ∧
    flashSizeById.lookup 5 = some 2097152 ∧
    flashSizeById.lookup 6 = some 4194304 ∧
    flashSizeById.lookup 7 = some 4194304 := by
  decide

/-- Witness for C7 at a concrete legal combination. -/
theorem C7_flashSizeFromParams_roundTrip_witness :
    flashSizeFromParams ((2 <<< 8) ||| (1 <<< 4) ||| 0) = .ok 262144 :=
  C7_flashSizeFromParams_roundTrip.1 ("dio", 2) (by decide) ("2m", 1) (by decide)
    ("40m", 0) (by decide) 262144 (by decide)

/-- **C9.** `makeIDBlock(domain)` is `sha1(d) ++ d ++ [0x00]` for the one
device ID `d` generated for the domain: a `20 + N + 1`-byte record whose
SHA-1 digest prefix covers exactly the ID bytes that follow it, ending in
a single NUL terminator. -/
theorem C9_makeIDBlock_spec (sha1 : List Nat → List Nat)
    (randomDeviceID : String → List Nat) (domain : String)
    (h20 : (sha1 (randomDeviceID domain)).length = 20) :
    makeIDBlock sha1 randomDeviceID domain =
      sha1 (randomDeviceID domain) ++ randomDeviceID domain ++ [0] ∧
    (makeIDBlock sha1 randomDeviceID domain).length =
      20 + (randomDeviceID domain).length + 1 ∧
    (makeIDBlock sha1 randomDeviceID domain).take 20 = sha1 (randomDeviceID domain) ∧
    ((makeIDBlock sha1 randomDeviceID domain).drop 20).take
        (randomDeviceID domain).length = randomDeviceID domain ∧
    (makeIDBlock sha1 randomDeviceID domain).getLast? = some 0 := by
  refine ⟨rfl, ?_, ?_, ?_, ?_⟩
  · simp [makeIDBlock, h20]; omega
  · rw [makeIDBlock, List.append_assoc, List.take_left' h20]
  · rw [makeIDBlock, List.append_assoc, List.drop_left' h20,
      List.take_left' rfl]
  · show ((sha1 (randomDeviceID domain) ++ randomDeviceID domain) ++ [0]).getLast? =
      some 0
    exact List.getLast?_concat _

/-- Witness for C9 with a concrete 20-byte digest function and ID. -/
theorem C9_makeIDBlock_spec_witness :
    makeIDBlock (fun _ => List.replicate 20 7) (fun _ => [5, 6]) "example.com" =
      List.replicate 20 7 ++ [5, 6] ++ [0] :=
  (C9_makeIDBlock_spec (fun _ => List.replicate 20 7) (fun _ => [5, 6])
    "example.com" (by decide)).1

/-- If some image's digest query fails, the whole dedup loop reports it. -/
theorem dedupLoop_eq_none (digestFn : Nat → Nat → Nat → Except Status DigestResult)
    (md5 : List Nat → List Nat) :
    ∀ images : List (Nat × Image),
    (∃ e ∈ images, ∃ st, digestFn e.1 e.2.data.length kFlashSectorSize = .error st) →
    dedupLoop digestFn md5 images = none := by
  intro images
  induction images with
  | nil => rintro ⟨e, he, _⟩; cases he
  | cons hd rest ih =>
    rintro ⟨e, he, st, hst⟩
    obtain ⟨addr, image⟩ := hd
    simp only [List.mem_cons] at he
    rcases he with rfl | he
    · simp only [dedupLoop, hst]
    · unfold dedupLoop
      rw [ih ⟨e, he, st, hst⟩]
      cases digestFn addr image.data.length kFlashSectorSize <;> rfl

/-- **C10.** If the stub's per-sector digest query fails for any image,
`dedupImages` abandons minimization and returns the original image map
unchanged, rather than propagating the error. -/
theorem C10_dedupImages_digestFailure
    (digestFn : Nat → Nat → Nat → Except Status DigestResult)
    (md5 : List Nat → List Nat) (images : List (Nat × Image))
    (h : ∃ e ∈ images, ∃ st, digestFn e.1 e.2.data.length kFlashSectorSize = .error st) :
    dedupImages digestFn md5 images = images := by
  unfold dedupImages
  rw [dedupLoop_eq_none digestFn md5 images h]

/-- Witness for C10: a failing digest query on a one-image map. -/
theorem C10_dedupImages_digestFailure_witness :
    dedupImages (fun _ _ _ => .error (QS .UNAVAILABLE "digest failed"))
      (fun l => l) [(0, ⟨0, [1], []⟩)] = [(0, ⟨0, [1], []⟩)] :=
  C10_dedupImages_digestFailure _ _ _
    ⟨(0, ⟨0, [1], []⟩), by simp, QS .UNAVAILABLE "digest failed", rfl⟩

/-- The state `totalBytes` is evaluated on in the C8 counterexample:
merging enabled, a 1-byte image at the SPIFFS offset, `spiffs_size_`
65536. -/
def spiffsExampleState : FlasherState :=
  ⟨[(0xec000, ⟨0xec000, [7], []⟩)], true, 0xec000, 65536⟩

/-- **C8 counterexample.** The claim says `totalBytes` adds `spiffs_size`
once more when merging is enabled and an image sits at the SPIFFS offset;
the code instead adds that image's data length, which differs whenever
the two disagree: here the sum of lengths is 1 and `spiffs_size` is
65536, yet `totalBytes` returns 2, not 1 + 65536. -/
theorem C8_totalBytes_counterexample :
    totalBytes spiffsExampleState = 2 ∧
    (spiffsExampleState.images.map (fun e => e.2.data.length)).sum = 1 ∧
    spiffsExampleState.spiffs_size = 65536 ∧
    spiffsExampleState.merge_flash_filesystem = true ∧
    (mapLookup spiffsExampleState.spiffs_offset spiffsExampleState.images).isSome = true ∧
    totalBytes spiffsExampleState ≠
      (spiffsExampleState.images.map (fun e => e.2.data.length)).sum +
        spiffsExampleState.spiffs_size := by
  decide

/-- **C8 (amended).** `totalBytes` returns the sum of all images' data
lengths, plus the data length of the image at the configured SPIFFS
offset once more when filesystem merging is enabled and such an image
exists; when merging is disabled or no image sits at that offset, it
returns exactly the plain sum. -/
theorem C8_totalBytes_spec (st : FlasherState) :
    (∀ image, st.merge_flash_filesystem = true →
      mapLookup st.spiffs_offset st.images = some image →
      totalBytes st = (st.images.map (fun e => e.2.data.length)).sum +
        image.data.length) ∧
    (st.merge_flash_filesystem = false →
      totalBytes st = (st.images.map (fun e => e.2.data.length)).sum) ∧
    (mapLookup st.spiffs_offset st.images = none →
      totalBytes st = (st.images.map (fun e => e.2.data.length)).sum) := by
  refine ⟨fun image hm hl => ?_, fun hm => ?_, fun hl => ?_⟩
  · simp [totalBytes, hm, hl]
  · simp [totalBytes, hm]
  · cases hm : st.merge_flash_filesystem <;> simp [totalBytes, hm, hl]

/-- Witness for C8 (amended) at the counterexample state. -/
theorem C8_totalBytes_spec_witness :
    totalBytes spiffsExampleState =
      (spiffsExampleState.images.map (fun e => e.2.data.length)).sum +
        ((⟨0xec000, [7], []⟩ : Image)).data.length :=
  (C8_totalBytes_spec spiffsExampleState).1 ⟨0xec000, [7], []⟩ rfl rfl

/-- `attrType` depends only on the attribute map. -/
theorem attrType_eq_of_attrs (i j : Image) (h : i.attrs = j.attrs) :
    i.attrType = j.attrType := by
  unfold Image.attrType
  rw [h]

/-- For an in-range `flashSize`, the `quint32` expression
`flashSize - kSystemParamsAreaSize` is the plain subtraction. -/
theorem systemParamsBegin_eq (flashSize : Nat)
    (h1 : kSystemParamsAreaSize ≤ flashSize) (h2 : flashSize < kU32) :
    (flashSize + (kU32 - kSystemParamsAreaSize)) % kU32 =
      flashSize - kSystemParamsAreaSize := by
  unfold kU32 kSystemParamsAreaSize at *
  omega

/-- **C3.** Sys-params relocation: if the image set contains an image of
`attrs.type = "sys_params"` at any address, then after
`adjustSysParamsLocation` a sys-params image sits exactly at
`flashSize - 16384` — both its map key and its `addr` field — and the
map keys remain strictly ascending (so no other image occupies that
address). -/
theorem C3_adjustSysParamsLocation_spec (flashSize : Nat)
    (images : List (Nat × Image))
    (hfs1 : kSystemParamsAreaSize ≤ flashSize) (hfs2 : flashSize < kU32)
    (hwf : ∀ e ∈ images, e.2.addr = e.1)
    (hsorted : (mapKeys images).Pairwise (· < ·))
    (hsys : ∃ e ∈ images, e.2.attrType = kSystemParamsPartType) :
    (∃ img', mapLookup (flashSize - kSystemParamsAreaSize)
        (adjustSysParamsLocation flashSize images) = some img' ∧
      img'.addr = flashSize - kSystemParamsAreaSize ∧
      img'.attrType = kSystemParamsPartType) ∧
    (mapKeys (adjustSysParamsLocation flashSize images)).Pairwise (· < ·) := by
  have htarget := systemParamsBegin_eq flashSize hfs1 hfs2
  have hadj : adjustSysParamsLocation flashSize images =
      (match images.find? (fun e =>
          decide (e.2.attrType = kSystemParamsPartType ∧
            e.2.addr ≠ (flashSize - kSystemParamsAreaSize))) with
       | none => images
       | some (k, image) =>
         mapInsert (flashSize - kSystemParamsAreaSize)
           { image with addr := flashSize - kSystemParamsAreaSize }
           (mapErase k images)) := by
    unfold adjustSysParamsLocation
    rw [htarget]
  rcases hfind : images.find? (fun e =>
      decide (e.2.attrType = kSystemParamsPartType ∧
        e.2.addr ≠ (flashSize - kSystemParamsAreaSize))) with _ | ⟨k, img⟩
  · -- nothing movable: every sys-params image already sits at the target
    rw [hfind] at hadj
    rw [List.find?_eq_none] at hfind
    obtain ⟨e, he, htype⟩ := hsys
    have haddr : e.2.addr = flashSize - kSystemParamsAreaSize := by
      have h := hfind e he
      rw [decide_eq_true_eq] at h
      push_neg at h
      exact h htype
    have hkey : e.1 = flashSize - kSystemParamsAreaSize := by
      rw [← haddr, hwf e he]
    refine ⟨⟨e.2, ?_, haddr, htype⟩, ?_⟩
    · rw [hadj, ← hkey]
      exact mapLookup_of_mem_sorted images hsorted e he
    · rw [hadj]; exact hsorted
  · -- the first movable sys-params image is erased and re-inserted
    rw [hfind] at hadj
    have hp := List.find?_some hfind
    rw [decide_eq_true_eq] at hp
    refine ⟨⟨{ img with addr := flashSize - kSystemParamsAreaSize }, ?_, ?_, ?_⟩, ?_⟩
    · rw [hadj]; exact mapLookup_mapInsert_self _ _ _
    · rfl
    · rw [attrType_eq_of_attrs
        { img with addr := flashSize - kSystemParamsAreaSize } img rfl]
      exact hp.1
    · rw [hadj]
      exact sorted_mapInsert _ _ _ (sorted_mapErase _ _ hsorted)

/-- Witness for C3: scenario S3 — a sys-params image at `0x3c000` with
512 KiB of flash moves to `0x7c000`. -/
theorem C3_adjustSysParamsLocation_spec_witness :
    (∃ img', mapLookup (524288 - kSystemParamsAreaSize)
        (adjustSysParamsLocation 524288
          [(245760, ⟨245760, [1], [("type", "sys_params")]⟩)]) = some img' ∧
      img'.addr = 524288 - kSystemParamsAreaSize ∧
      img'.attrType = kSystemParamsPartType) ∧
    (mapKeys (adjustSysParamsLocation 524288
        [(245760, ⟨245760, [1], [("type", "sys_params")]⟩)])).Pairwise (· < ·) :=
  C3_adjustSysParamsLocation_spec 524288 _ (by decide) (by decide)
    (by intro e he; simp at he; rw [he]) (by simp [mapKeys])
    ⟨(245760, ⟨245760, [1], [("type", "sys_params")]⟩), by simp, by decide⟩

/-- **C5.** Flash-params patch: if an image exists at address 0 with at
least 4 bytes of data, then after the patch step its byte [2] is
`(params >> 8) & 0xff` and its byte [3] is `params & 0xff`, where
`params` is the user override when set and otherwise the parsed
`dio,<size>m,40m` word for the detected flash size clamped to 4 MiB;
all other images (and shorter or absent images at 0) are left untouched. -/
theorem C5_patchFlashParams_spec (images : List (Nat × Image))
    (overrideP : Option Nat) (flashSize : Nat) :
    (∀ image p, mapLookup 0 images = some image → 4 ≤ image.data.length →
      (overrideP = some p ∨
        (overrideP = none ∧
          flashParamsFromString (defaultParamsString (min flashSize 4194304)) =
            .ok p)) →
      ∃ m', patchFlashParams images overrideP flashSize = some m' ∧
        ∃ image', mapLookup 0 m' = some image' ∧
          image'.data[2]? = some ((p >>> 8) &&& 0xff) ∧
          image'.data[3]? = some (p &&& 0xff) ∧
          image'.data.length = image.data.length ∧
          ∀ k, k ≠ 0 → mapLookup k m' = mapLookup k images) ∧
    ((∀ image, mapLookup 0 images = some image → image.data.length < 4) →
      patchFlashParams images overrideP flashSize = some images) := by
  have hclamp : (if 4194304 < flashSize then 4194304 else flashSize) =
      min flashSize 4194304 := by
    split <;> omega
  constructor
  · intro image p hl hlen hp
    have h2 : 2 < image.data.length := by omega
    have h3 : 3 < image.data.length := by omega
    have hred : patchFlashParams images overrideP flashSize =
        some (mapInsert 0
          { image with
            data := (image.data.set 2 ((p >>> 8) &&& 0xff)).set 3 (p &&& 0xff) }
          images) := by
      rcases hp with rfl | ⟨rfl, hparse⟩
      · simp only [patchFlashParams, hl, if_pos hlen]
      · simp only [patchFlashParams, hl, if_pos hlen, hclamp, hparse]
    refine ⟨_, hred, _, mapLookup_mapInsert_self _ _ _, ?_, ?_, ?_, ?_⟩
    · rw [List.getElem?_set_ne (by omega),
        List.getElem?_set_self (by simpa using h2)]
    · rw [List.getElem?_set_self (by simpa using h3)]
    · simp
    · intro k hk
      exact mapLookup_mapInsert_ne 0 k _ images hk
  · intro hshort
    rcases hl : mapLookup 0 images with _ | image
    · simp only [patchFlashParams, hl]
    · have := hshort image hl
      simp only [patchFlashParams, hl, if_neg (by omega : ¬ 4 ≤ image.data.length)]

/-- Witness for C5: scenario S1 — a 4-byte image at 0, no override,
1 MiB flash; the derived word is `dio,8m,40m` = `0x220`, so bytes [2]
and [3] become `0x02` and `0x20`. -/
theorem C5_patchFlashParams_spec_witness :
    ∃ m', patchFlashParams [(0, ⟨0, [0xE9, 0, 0, 0], []⟩)] none 1048576 = some m' ∧
      ∃ image', mapLookup 0 m' = some image' ∧
        image'.data[2]? = some ((544 >>> 8) &&& 0xff) ∧
        image'.data[3]? = some (544 &&& 0xff) ∧
        image'.data.length = (⟨0, [0xE9, 0, 0, 0], []⟩ : Image).data.length ∧
        ∀ k, k ≠ 0 → mapLookup k m' = mapLookup k [(0, ⟨0, [0xE9, 0, 0, 0], []⟩)] :=
  (C5_patchFlashParams_spec [(0, ⟨0, [0xE9, 0, 0, 0], []⟩)] none 1048576).1
    ⟨0, [0xE9, 0, 0, 0], []⟩ 544 rfl (by decide) (Or.inr ⟨rfl, by decide⟩)

/-- `verifyImages` succeeds exactly when every image's stub digest query
succeeds and returns the host MD5 of the image's data. -/
theorem verifyImages_ok_iff (digestFn : Nat → Nat → Nat → Except Status DigestResult)
    (md5 : List Nat → List Nat) :
    ∀ images : List (Nat × Image),
    (verifyImages digestFn md5 images = .ok () ↔
      ∀ e ∈ images, ∃ dr, digestFn e.2.addr e.2.data.length 0 = .ok dr ∧
        md5 e.2.data = dr.digest) := by
  intro images
  induction images with
  | nil => simp [verifyImages]
  | cons hd rest ih =>
    obtain ⟨k, image⟩ := hd
    constructor
    · intro h
      cases hq : digestFn image.addr image.data.length 0 with
      | error st => simp [verifyImages, hq] at h
      | ok dr =>
        by_cases hm : md5 image.data = dr.digest
        · have h' : verifyImages digestFn md5 rest = .ok () := by
            simpa [verifyImages, hq, hm] using h
          intro e he
          rcases List.mem_cons.mp he with rfl | he
          · exact ⟨dr, hq, hm⟩
          · exact (ih.mp h') e he
        · simp [verifyImages, hq, hm] at h
    · intro h
      obtain ⟨dr, hq, hm⟩ := h (k, image) (List.mem_cons_self _ _)
      simp only [verifyImages, hq]
      rw [if_neg (fun hne => hne hm)]
      exact ih.mpr (fun e he => h e (List.mem_cons_of_mem _ he))

/-- When all earlier images pass, a digest mismatch at an image aborts
`verifyImages` with `DATA_LOSS` naming the image's address. -/
theorem verifyImages_mismatch (digestFn : Nat → Nat → Nat → Except Status DigestResult)
    (md5 : List Nat → List Nat) :
    ∀ (pre : List (Nat × Image)) (e : Nat × Image) (post : List (Nat × Image)),
    (∀ e' ∈ pre, ∃ dr, digestFn e'.2.addr e'.2.data.length 0 = .ok dr ∧
      md5 e'.2.data = dr.digest) →
    ∀ dr, digestFn e.2.addr e.2.data.length 0 = .ok dr →
    md5 e.2.data ≠ dr.digest →
    verifyImages digestFn md5 (pre ++ e :: post) =
      .error (QS .DATA_LOSS ("digest mismatch for image 0x" ++ hexStr e.2.addr)) := by
  intro pre
  induction pre with
  | nil =>
    intro e post _ dr hq hm
    obtain ⟨k, image⟩ := e
    simp only [List.nil_append, verifyImages, hq]
    rw [if_pos hm]
  | cons p pre' ih =>
    intro e post hpre dr hq hm
    obtain ⟨k, image⟩ := p
    obtain ⟨dr', hq', hm'⟩ := hpre (k, image) (List.mem_cons_self _ _)
    simp only [List.cons_append, verifyImages, hq']
    rw [if_neg (fun hne => hne hm')]
    exact ih e post (fun e' he' => hpre e' (List.mem_cons_of_mem _ he')) dr hq hm

/-- When all earlier images pass, a digest-query failure at an image
aborts `verifyImages` with the query's status wrapped by `QSP`. -/
theorem verifyImages_queryFailure
    (digestFn : Nat → Nat → Nat → Except Status DigestResult)
    (md5 : List Nat → List Nat) :
    ∀ (pre : List (Nat × Image)) (e : Nat × Image) (post : List (Nat × Image)),
    (∀ e' ∈ pre, ∃ dr, digestFn e'.2.addr e'.2.data.length 0 = .ok dr ∧
      md5 e'.2.data = dr.digest) →
    ∀ st, digestFn e.2.addr e.2.data.length 0 = .error st →
    verifyImages digestFn md5 (pre ++ e :: post) =
      .error (QSP ("failed to compute digest of " ++ toString e.2.data.length ++
        " @ 0x" ++ hexStr e.2.addr) st) := by
  intro pre
  induction pre with
  | nil =>
    intro e post _ st hq
    obtain ⟨k, image⟩ := e
    simp only [List.nil_append, verifyImages, hq]
  | cons p pre' ih =>
    intro e post hpre st hq
    obtain ⟨k, image⟩ := p
    obtain ⟨dr', hq', hm'⟩ := hpre (k, image) (List.mem_cons_self _ _)
    simp only [List.cons_append, verifyImages, hq']
    rw [if_neg (fun hne => hne hm')]
    exact ih e post (fun e' he' => hpre e' (List.mem_cons_of_mem _ he')) st hq

/-- **C4.** Verification succeeds iff, for every original image, the stub
digest of `(addr, len, 0)` equals the host MD5 of the image's data; the
first mismatch yields `DATA_LOSS` naming the image's address, and a
digest-query failure surfaces with the query's error code preserved. -/
theorem C4_verifyImages_spec (digestFn : Nat → Nat → Nat → Except Status DigestResult)
    (md5 : List Nat → List Nat) (images : List (Nat × Image)) :
    (verifyImages digestFn md5 images = .ok () ↔
      ∀ e ∈ images, ∃ dr, digestFn e.2.addr e.2.data.length 0 = .ok dr ∧
        md5 e.2.data = dr.digest) ∧
    (∀ pre e post, images = pre ++ e :: post →
      (∀ e' ∈ pre, ∃ dr, digestFn e'.2.addr e'.2.data.length 0 = .ok dr ∧
        md5 e'.2.data = dr.digest) →
      (∀ dr, digestFn e.2.addr e.2.data.length 0 = .ok dr →
        md5 e.2.data ≠ dr.digest →
        verifyImages digestFn md5 images =
          .error (QS .DATA_LOSS ("digest mismatch for image 0x" ++ hexStr e.2.addr))) ∧
      (∀ st, digestFn e.2.addr e.2.data.length 0 = .error st →
        verifyImages digestFn md5 images =
          .error (QSP ("failed to compute digest of " ++ toString e.2.data.length ++
            " @ 0x" ++ hexStr e.2.addr) st) ∧
        (QSP ("failed to compute digest of " ++ toString e.2.data.length ++
          " @ 0x" ++ hexStr e.2.addr) st).code = st.code)) := by
  refine ⟨verifyImages_ok_iff digestFn md5 images, ?_⟩
  rintro pre e post rfl hpre
  exact ⟨fun dr hq hm => verifyImages_mismatch digestFn md5 pre e post hpre dr hq hm,
    fun st hq =>
      ⟨verifyImages_queryFailure digestFn md5 pre e post hpre st hq, rfl⟩⟩

/-- Witness for C4: a one-image map whose stub digest disagrees with the
host MD5 is rejected with `DATA_LOSS` naming address `0x1000`. -/
theorem C4_verifyImages_spec_witness :
    verifyImages (fun _ _ _ => .ok ⟨[9], []⟩) (fun _ => [8]) [(4096, ⟨4096, [1], []⟩)] =
      .error (QS .DATA_LOSS ("digest mismatch for image 0x" ++ hexStr 4096)) :=
  ((C4_verifyImages_spec (fun _ _ _ => .ok ⟨[9], []⟩) (fun _ => [8])
      [(4096, ⟨4096, [1], []⟩)]).2 [] (4096, ⟨4096, [1], []⟩) [] rfl
    (by intro e' he'; cases he')).1 ⟨[9], []⟩ rfl (by decide)

/-- Every error `sanityCheckGo` produces carries `INVALID_ARGUMENT`. -/
theorem sanityCheckGo_error_code (flashSize flashSectorSize : Nat) :
    ∀ (images : List (Nat × Image)) (prev : Option (Nat × Nat)) (st : Status),
    sanityCheckGo flashSize flashSectorSize prev images = .error st →
    st.code = .INVALID_ARGUMENT := by
  intro images
  induction images with
  | nil => intro prev st h; simp [sanityCheckGo] at h
  | cons hd rest ih =>
    intro prev st h
    obtain ⟨k, image⟩ := hd
    simp only [sanityCheckGo] at h
    repeat' split at h
    all_goals
      first
      | (injection h with h2; rw [← h2]; rfl)
      | exact ih _ _ h

/-- All the information extracted from a successful `sanityCheckGo` run:
per-image facts, the adjacent-image chain, and the bound on the first
image coming from the carried previous range. -/
theorem sanityCheckGo_ok (flashSize flashSectorSize : Nat) :
    ∀ (images : List (Nat × Image)) (prev : Option (Nat × Nat)),
    (∀ e ∈ images, e.1 + e.2.data.length < kU32) →
    sanityCheckGo flashSize flashSectorSize prev images = .ok () →
    (∀ e ∈ images, e.1 % flashSectorSize = 0 ∧ e.1 + e.2.data.length ≤ flashSize ∧
      (e.1 = 0 → e.2.data ≠ [] → e.2.data.headI = 0xE9)) ∧
    List.Chain' (fun a b => a.1 + a.2.data.length ≤ b.1) images ∧
    (∀ pb pe, prev = some (pb, pe) → ∀ hd, images.head? = some hd → pe ≤ hd.1) := by
  intro images
  induction images with
  | nil =>
    intro prev _ _
    exact ⟨by simp, List.chain'_nil, by simp⟩
  | cons hd rest ih =>
    intro prev hnw hok
    obtain ⟨k, image⟩ := hd
    have hknw : k + image.data.length < kU32 :=
      hnw (k, image) (List.mem_cons_self _ _)
    have hkmod : k % kU32 = k := Nat.mod_eq_of_lt (by omega)
    have hendmod : (k + image.data.length) % kU32 = k + image.data.length :=
      Nat.mod_eq_of_lt hknw
    simp only [sanityCheckGo, hkmod, hendmod] at hok
    by_cases h1 : flashSize ≤ k ∨ flashSize < k + image.data.length
    · rw [if_pos h1] at hok; cases hok
    rw [if_neg h1] at hok
    by_cases h2 : k % flashSectorSize ≠ 0
    · rw [if_pos h2] at hok; cases hok
    rw [if_neg h2] at hok
    by_cases h3 : k = 0 ∧ 1 ≤ image.data.length ∧ image.data.headI ≠ 0xE9
    · rw [if_pos h3] at hok; cases hok
    rw [if_neg h3] at hok
    by_cases h4 : ¬(k = (flashSize + (kU32 - kSystemParamsAreaSize)) % kU32 ∧
        image.attrType = kSystemParamsPartType) ∧
        (k < flashSize ∧ (flashSize + (kU32 - kSystemParamsAreaSize)) % kU32 <
          k + image.data.length)
    · rw [if_pos h4] at hok; cases hok
    rw [if_neg h4] at hok
    -- remaining: the overlap check against `prev`, then the recursive call
    have hrest : sanityCheckGo flashSize flashSectorSize
        (some (k, k + image.data.length)) rest = .ok () ∧
        (∀ pb pe, prev = some (pb, pe) → pe ≤ k) := by
      cases prev with
      | none => exact ⟨hok, by simp⟩
      | some pr =>
        obtain ⟨pb, pe⟩ := pr
        dsimp only at hok
        by_cases h5 : k < pe
        · rw [if_pos h5] at hok; cases hok
        · rw [if_neg h5] at hok
          exact ⟨hok, by rintro pb' pe' ⟨rfl, rfl⟩; omega⟩
    have hihres := ih (some (k, k + image.data.length))
      (fun e he => hnw e (List.mem_cons_of_mem _ he)) hrest.1
    refine ⟨?_, ?_, ?_⟩
    · intro e he
      rcases List.mem_cons.mp he with rfl | he
      · refine ⟨?_, ?_, ?_⟩
        · show k % flashSectorSize = 0
          omega
        · show k + image.data.length ≤ flashSize
          omega
        · intro hk0 hne
          by_contra hmagic
          exact h3 ⟨hk0, List.length_pos.mpr hne, hmagic⟩
      · exact hihres.1 e he
    · rw [List.chain'_cons']
      refine ⟨?_, hihres.2.1⟩
      intro b hb
      exact hihres.2.2 k (k + image.data.length) rfl b hb
    · rintro pb pe rfl hd hhd
      injection hhd with hhd'
      rw [← hhd']
      exact hrest.2 pb pe rfl


/-- **C2 counterexample.** The claim as stated fails: this image set and
flash size pass `sanityCheckImages`, yet the image at address 0 (with
empty data) does not begin with `0xE9`, and the second image — whose end
address is computed in wrapping 32-bit arithmetic — extends past
`flashSize`, so it does not lie within `[0, flashSize)`. -/
theorem C2_sanityCheckImages_counterexample :
    sanityCheckImages 4294967295 4096
      [(0, ⟨0, [], []⟩), (4294963200, ⟨4294963200, padBytes 8192, []⟩)] =
      .ok () ∧
    (⟨0, [], []⟩ : Image).data.head? ≠ some 0xE9 ∧
    ¬(4294963200 + (padBytes 8192).length ≤ 4294967295) ∧
    (mapKeys [(0, (⟨0, [], []⟩ : Image)),
      (4294963200, ⟨4294963200, padBytes 8192, []⟩)]).Pairwise (· < ·) := by
  refine ⟨?_, by decide, ?_, by decide⟩
  · show sanityCheckGo 4294967295 4096 none _ = .ok ()
    rw [sanityCheckGo]
    dsimp only []
    split
    case isTrue h =>
      exfalso; rw [List.length_nil] at h; unfold kU32 at h; omega
    case isFalse h1 =>
    split
    case isTrue h =>
      exfalso; unfold kU32 at h; omega
    case isFalse h2 =>
    split
    case isTrue h =>
      exfalso; obtain ⟨-, h, -⟩ := h; rw [List.length_nil] at h; omega
    case isFalse h3 =>
    split
    case isTrue h =>
      exfalso; obtain ⟨-, -, h⟩ := h; rw [List.length_nil] at h
      unfold kU32 kSystemParamsAreaSize at h; omega
    case isFalse h4 =>
    rw [sanityCheckGo]
    dsimp only []
    split
    case isTrue h =>
      exfalso; rw [padBytes_length] at h; unfold kU32 at h; omega
    case isFalse h5 =>
    split
    case isTrue h =>
      exfalso; unfold kU32 at h; omega
    case isFalse h6 =>
    split
    case isTrue h =>
      exfalso; obtain ⟨h, -⟩ := h; unfold kU32 at h; omega
    case isFalse h7 =>
    split
    case isTrue h =>
      exfalso; obtain ⟨-, -, h⟩ := h; rw [padBytes_length] at h
      unfold kU32 kSystemParamsAreaSize at h; omega
    case isFalse h8 =>
    split
    case isTrue h =>
      exfalso; rw [List.length_nil] at h; unfold kU32 at h; omega
    case isFalse h9 =>
    rw [sanityCheckGo]
  · intro hc
    rw [padBytes_length] at hc
    omega


/-- **C2 (amended).** For every image set (whose `addr + len` values do
not overflow 32 bits) and flash size accepted by `sanityCheckImages`:
no two images' `[addr, addr+len)` ranges overlap, every `addr` is a
multiple of the flash sector size, every image lies within
`[0, flashSize)`, and any *nonempty* image at address 0 begins with the
magic byte `0xE9`; whenever two images' ranges do overlap, the result is
an `INVALID_ARGUMENT` error — as the concrete S2 scenario shows, with
both offending addresses named in the message. -/
theorem C2_sanityCheckImages_spec (flashSize flashSectorSize : Nat)
    (images : List (Nat × Image))
    (hnowrap : ∀ e ∈ images, e.1 + e.2.data.length < kU32) :
    (sanityCheckImages flashSize flashSectorSize images = .ok () →
      images.Pairwise (fun a b =>
        a.1 + a.2.data.length ≤ b.1 ∨ b.1 + b.2.data.length ≤ a.1) ∧
      (∀ e ∈ images, e.1 % flashSectorSize = 0) ∧
      (∀ e ∈ images, e.1 + e.2.data.length ≤ flashSize) ∧
      (∀ e ∈ images, e.1 = 0 → e.2.data ≠ [] → e.2.data.headI = 0xE9)) ∧
    ((∃ a ∈ images, ∃ b ∈ images, a ≠ b ∧ rangesOverlap a b) →
      ∃ st, sanityCheckImages flashSize flashSectorSize images = .error st ∧
        st.code = .INVALID_ARGUMENT) ∧
    sanityCheckImages 1048576 4096
      [(0, ⟨0, 0xE9 :: padBytes 8191, []⟩),
       (4096, ⟨4096, padBytes 4096, []⟩)] =
      .error (QS .INVALID_ARGUMENT "Images at offsets 0x0 and 0x1000 overlap.") := by
  have hmain : sanityCheckImages flashSize flashSectorSize images = .ok () →
      images.Pairwise (fun a b =>
        a.1 + a.2.data.length ≤ b.1 ∨ b.1 + b.2.data.length ≤ a.1) ∧
      (∀ e ∈ images, e.1 % flashSectorSize = 0) ∧
      (∀ e ∈ images, e.1 + e.2.data.length ≤ flashSize) ∧
      (∀ e ∈ images, e.1 = 0 → e.2.data ≠ [] → e.2.data.headI = 0xE9) := by
    intro hok
    obtain ⟨hper, hchain, -⟩ :=
      sanityCheckGo_ok flashSize flashSectorSize images none hnowrap hok
    have htrans : ∀ a b c : Nat × Image, a.1 + a.2.data.length ≤ b.1 →
        b.1 + b.2.data.length ≤ c.1 → a.1 + a.2.data.length ≤ c.1 := by
      intro a b c hab hbc
      omega
    have hpair : images.Pairwise (fun a b => a.1 + a.2.data.length ≤ b.1) :=
      chain'_pairwise_of_trans htrans hchain
    exact ⟨hpair.imp (fun h => Or.inl h), fun e he => (hper e he).1,
      fun e he => (hper e he).2.1, fun e he => (hper e he).2.2⟩
  refine ⟨hmain, ?_, ?_⟩
  case refine_2 =>
    show sanityCheckGo 1048576 4096 none _ = _
    rw [sanityCheckGo]
    dsimp only []
    split
    case isTrue h =>
      exfalso; rw [List.length_cons, padBytes_length] at h; unfold kU32 at h
      omega
    case isFalse h1 =>
    split
    case isTrue h =>
      exfalso; unfold kU32 at h; omega
    case isFalse h2 =>
    split
    case isTrue h =>
      exact absurd (by rw [List.headI_cons]) h.2.2
    case isFalse h3 =>
    split
    case isTrue h =>
      exfalso; obtain ⟨-, -, h⟩ := h; rw [List.length_cons, padBytes_length] at h
      unfold kU32 kSystemParamsAreaSize at h; omega
    case isFalse h4 =>
    rw [sanityCheckGo]
    dsimp only []
    split
    case isTrue h =>
      exfalso; rw [padBytes_length] at h; unfold kU32 at h; omega
    case isFalse h5 =>
    split
    case isTrue h =>
      exfalso; unfold kU32 at h; omega
    case isFalse h6 =>
    split
    case isTrue h =>
      exfalso; obtain ⟨h, -⟩ := h; unfold kU32 at h; omega
    case isFalse h7 =>
    split
    case isTrue h =>
      exfalso; obtain ⟨-, -, h⟩ := h; rw [padBytes_length] at h
      unfold kU32 kSystemParamsAreaSize at h; omega
    case isFalse h8 =>
    split
    case isTrue h => rfl
    case isFalse h =>
      exfalso; rw [List.length_cons, padBytes_length] at h; unfold kU32 at h
      omega
  rintro ⟨a, ha, b, hb, hne, hov⟩
  cases hres : sanityCheckImages flashSize flashSectorSize images with
  | ok u =>
    exfalso
    cases u
    obtain ⟨hpair, -, -, -⟩ := hmain hres
    have hsym : Symmetric (fun a b : Nat × Image =>
        a.1 + a.2.data.length ≤ b.1 ∨ b.1 + b.2.data.length ≤ a.1) :=
      fun x y h => h.symm
    have hdisj := (List.Pairwise.forall hsym hpair) ha hb hne
    have hba : b.1 < a.1 + a.2.data.length :=
      lt_of_le_of_lt (le_max_right a.1 b.1)
        (lt_of_lt_of_le hov (min_le_left _ _))
    have hab : a.1 < b.1 + b.2.data.length :=
      lt_of_le_of_lt (le_max_left a.1 b.1)
        (lt_of_lt_of_le hov (min_le_right _ _))
    rcases hdisj with h | h <;> omega
  | error st =>
    exact ⟨st, rfl,
      sanityCheckGo_error_code flashSize flashSectorSize images none st hres⟩

/-- Unfolding `specRunsRev` at a skipped sector. -/
theorem specRunsRev_succ_of_match (f : Nat → Bool) (n : Nat) (hf : f n = true) :
    specRunsRev f (n + 1) = specRunsRev f n := by
  simp [specRunsRev, hf]

/-- Unfolding `specRunsRev` at a differing sector. -/
theorem specRunsRev_succ_of_diff (f : Nat → Bool) (n : Nat) (hf : f n = false) :
    specRunsRev f (n + 1) =
      (match specRunsRev f n with
       | (s, e) :: rest =>
         if e = n then (s, n + 1) :: rest else (n, n + 1) :: (s, e) :: rest
       | [] => [(n, n + 1)]) := by
  simp [specRunsRev, hf]

/-- Every run `(s, e)` recorded by `specRunsRev f n` satisfies
`s < e ≤ n`. -/
theorem specRunsRev_lt_le (f : Nat → Bool) :
    ∀ n, ∀ r ∈ specRunsRev f n, r.1 < r.2 ∧ r.2 ≤ n := by
  intro n
  induction n with
  | zero => intro r hr; simp [specRunsRev] at hr
  | succ n ih =>
    intro r hr
    rcases hfn : f n with _ | _
    · rw [specRunsRev_succ_of_diff f n hfn] at hr
      rcases hrev : specRunsRev f n with _ | ⟨⟨s, e⟩, rest⟩
      · rw [hrev] at hr
        simp only [List.mem_singleton] at hr
        subst hr
        exact ⟨by omega, by omega⟩
      · rw [hrev] at hr
        dsimp only at hr
        by_cases he : e = n
        · rw [if_pos he] at hr
          rcases List.mem_cons.mp hr with rfl | hr'
          · have := ih (s, e) (by rw [hrev]; exact List.mem_cons_self _ _)
            simp only at this ⊢
            omega
          · have := ih r (by rw [hrev]; exact List.mem_cons_of_mem _ hr')
            omega
        · rw [if_neg he] at hr
          rcases List.mem_cons.mp hr with rfl | hr'
          · simp only
            omega
          · have := ih r (by rw [hrev]; exact hr')
            omega
    · rw [specRunsRev_succ_of_match f n hfn] at hr
      have := ih r hr
      omega

/-- A sector index is covered by some run of `specRunsRev f n` exactly
when it lies below `n` and is not skipped. -/
theorem specRunsRev_covers (f : Nat → Bool) :
    ∀ n i, (∃ r ∈ specRunsRev f n, r.1 ≤ i ∧ i < r.2) ↔ (i < n ∧ f i = false) := by
  intro n
  induction n with
  | zero => intro i; simp [specRunsRev]
  | succ n ih =>
    intro i
    rcases hfn : f n with _ | _
    · rw [specRunsRev_succ_of_diff f n hfn]
      rcases hrev : specRunsRev f n with _ | ⟨⟨s, e⟩, rest⟩
      · dsimp only
        constructor
        · rintro ⟨r, hr, h1, h2⟩
          rcases List.mem_singleton.mp hr with rfl
          simp only at h1 h2
          have hin : i = n := by omega
          subst hin
          exact ⟨by omega, hfn⟩
        · rintro ⟨h1, h2⟩
          rcases Nat.lt_succ_iff_lt_or_eq.mp h1 with h | rfl
          · exfalso
            have := (ih i).mpr ⟨h, h2⟩
            rw [hrev] at this
            simp at this
          · exact ⟨(i, i + 1), List.mem_singleton.mpr rfl, le_refl _, by omega⟩
      · dsimp only
        have hse := specRunsRev_lt_le f n (s, e)
          (by rw [hrev]; exact List.mem_cons_self _ _)
        simp only at hse
        by_cases he : e = n
        · rw [if_pos he]
          constructor
          · rintro ⟨r, hr, h1, h2⟩
            rcases List.mem_cons.mp hr with rfl | hr'
            · simp only at h1 h2
              by_cases hi : i < n
              · have := (ih i).mp ⟨(s, e), by rw [hrev]; exact List.mem_cons_self _ _,
                  h1, by omega⟩
                exact ⟨by omega, this.2⟩
              · have hin : i = n := by omega
                subst hin
                exact ⟨by omega, hfn⟩
            · have := (ih i).mp ⟨r, by rw [hrev]; exact List.mem_cons_of_mem _ hr',
                h1, h2⟩
              exact ⟨by omega, this.2⟩
          · rintro ⟨h1, h2⟩
            rcases Nat.lt_succ_iff_lt_or_eq.mp h1 with h | heq
            · obtain ⟨r, hr, hr1, hr2⟩ := (ih i).mpr ⟨h, h2⟩
              rw [hrev] at hr
              rcases List.mem_cons.mp hr with rfl | hr'
              · exact ⟨(s, n + 1), List.mem_cons_self _ _, hr1, by omega⟩
              · exact ⟨r, List.mem_cons_of_mem _ hr', hr1, hr2⟩
            · subst heq
              exact ⟨(s, i + 1), List.mem_cons_self _ _, by omega, by omega⟩
        · rw [if_neg he]
          constructor
          · rintro ⟨r, hr, h1, h2⟩
            rcases List.mem_cons.mp hr with rfl | hr'
            · simp only at h1 h2
              have hin : i = n := by omega
              subst hin
              exact ⟨by omega, hfn⟩
            · have := (ih i).mp ⟨r, by rw [hrev]; exact hr', h1, h2⟩
              exact ⟨by omega, this.2⟩
          · rintro ⟨h1, h2⟩
            rcases Nat.lt_succ_iff_lt_or_eq.mp h1 with h | heq
            · obtain ⟨r, hr, hr1, hr2⟩ := (ih i).mpr ⟨h, h2⟩
              rw [hrev] at hr
              exact ⟨r, List.mem_cons_of_mem _ hr, hr1, hr2⟩
            · subst heq
              exact ⟨(i, i + 1), List.mem_cons_self _ _, le_refl _, by omega⟩
    · rw [specRunsRev_succ_of_match f n hfn]
      rw [ih i]
      constructor
      · rintro ⟨h1, h2⟩; exact ⟨by omega, h2⟩
      · rintro ⟨h1, h2⟩
        refine ⟨?_, h2⟩
        rcases Nat.lt_succ_iff_lt_or_eq.mp h1 with h | rfl
        · exact h
        · rw [hfn] at h2; cases h2

/-- The sector lengths of an image sum to its total byte length. -/
theorem sum_sectorLen : ∀ (N L : Nat), numBlocks L = N →
    ∑ i ∈ Finset.range N, sectorLen L i = L := by
  intro N
  induction N with
  | zero =>
    intro L hL
    have : L = 0 := by unfold numBlocks kFlashSectorSize at hL; omega
    simp [this]
  | succ N ih =>
    intro L hL
    rw [Finset.sum_range_succ']
    have hshift : ∀ i : Nat, sectorLen L (i + 1) = sectorLen (L - kFlashSectorSize) i := by
      intro i
      unfold sectorLen kFlashSectorSize
      omega
    by_cases hsmall : L ≤ kFlashSectorSize
    · have hN : N = 0 ∧ 1 ≤ L := by
        unfold numBlocks at hL
        unfold kFlashSectorSize at hL hsmall
        omega
      obtain ⟨rfl, hL1⟩ := hN
      simp only [Finset.range_zero, Finset.sum_empty, Nat.zero_add]
      unfold sectorLen kFlashSectorSize at *
      omega
    · have hrec : numBlocks (L - kFlashSectorSize) = N := by
        unfold numBlocks kFlashSectorSize at hL ⊢
        omega
      calc (∑ i ∈ Finset.range N, sectorLen L (i + 1)) + sectorLen L 0
          = (∑ i ∈ Finset.range N, sectorLen (L - kFlashSectorSize) i) +
              sectorLen L 0 := by
            rw [Finset.sum_congr rfl (fun i _ => hshift i)]
        _ = (L - kFlashSectorSize) + sectorLen L 0 := by rw [ih _ hrec]
        _ = L := by unfold sectorLen kFlashSectorSize at *; omega

/-- Witness for C2 (amended): a well-formed two-image set (sector size
16) passes the check and enjoys all four invariants. -/
theorem C2_sanityCheckImages_spec_witness :
    ([(0, (⟨0, 0xE9 :: List.replicate 15 0, []⟩ : Image)),
      (16, ⟨16, List.replicate 16 0, []⟩)].Pairwise (fun a b =>
        a.1 + a.2.data.length ≤ b.1 ∨ b.1 + b.2.data.length ≤ a.1)) ∧
    (∀ e ∈ [(0, (⟨0, 0xE9 :: List.replicate 15 0, []⟩ : Image)),
      (16, ⟨16, List.replicate 16 0, []⟩)], e.1 % 16 = 0) ∧
    (∀ e ∈ [(0, (⟨0, 0xE9 :: List.replicate 15 0, []⟩ : Image)),
      (16, ⟨16, List.replicate 16 0, []⟩)], e.1 + e.2.data.length ≤ 1048576) ∧
    (∀ e ∈ [(0, (⟨0, 0xE9 :: List.replicate 15 0, []⟩ : Image)),
      (16, ⟨16, List.replicate 16 0, []⟩)],
      e.1 = 0 → e.2.data ≠ [] → e.2.data.headI = 0xE9) :=
  (C2_sanityCheckImages_spec 1048576 16
    [(0, ⟨0, 0xE9 :: List.replicate 15 0, []⟩), (16, ⟨16, List.replicate 16 0, []⟩)]
    (by decide)).1 (by decide)

/-- Sector `i` of an image that has more than `i` sectors is nonempty. -/
theorem sectorLen_pos (L i : Nat) (h : i < numBlocks L) : 0 < sectorLen L i := by
  unfold numBlocks sectorLen kFlashSectorSize at *
  omega

/-- A single-sector run carries exactly that sector's bytes. -/
theorem runBytes_single (L n : Nat) : runBytes L n (n + 1) = sectorLen L n := by
  unfold runBytes
  rw [Finset.sum_Ico_succ_top (le_refl n), Finset.Ico_self, Finset.sum_empty,
    Nat.zero_add]

/-- Extending a run by one sector adds that sector's bytes. -/
theorem runBytes_succ (L s n : Nat) (h : s ≤ n) :
    runBytes L s (n + 1) = runBytes L s n + sectorLen L n := by
  unfold runBytes
  rw [Finset.sum_Ico_succ_top h]

/-- A nonempty run starting before the image's end has positive length. -/
theorem runBytes_pos (L s e : Nat) (hse : s < e) (hs : s < numBlocks L) :
    0 < runBytes L s e := by
  have h1 := sectorLen_pos L s hs
  have h2 : sectorLen L s ≤ runBytes L s e := by
    unfold runBytes
    exact Finset.single_le_sum (fun i _ => Nat.zero_le (sectorLen L i))
      (Finset.mem_Ico.mpr ⟨le_refl s, hse⟩)
  omega

/-- The sub-image flushed for a run `(s, e)` is exactly `runImage`'s. -/
theorem subImage_eq_runImage (image : Image) (addr s e : Nat) :
    subImage image addr image.data (addr + s * kFlashSectorSize)
        (runBytes image.data.length s e) = runImage addr image (s, e) := by
  unfold subImage runImage
  rw [Nat.add_sub_cancel_left]

/-- `scanStep` at a matching sector flushes the pending run (if any). -/
theorem scanStep_of_match (md5 : List Nat → List Nat) (bd : List (List Nat))
    (addr : Nat) (data : List Nat) (image : Image) (st : ScanSt) (i : Nat)
    (hf : sectorMatches md5 bd data i = true) :
    scanStep md5 bd addr data image st i =
      if 0 < st.newLen then
        { st with
          newImages := st.newImages ++ [subImage image addr data st.newAddr st.newLen]
          newLen := 0 }
      else st := by
  unfold sectorMatches at hf
  rw [decide_eq_true_eq] at hf
  unfold sectorLen at hf
  simp only [scanStep]
  rw [if_pos hf]

/-- `scanStep` at a differing sector starts or extends the pending run
and counts the sector's bytes. -/
theorem scanStep_of_diff (md5 : List Nat → List Nat) (bd : List (List Nat))
    (addr : Nat) (data : List Nat) (image : Image) (st : ScanSt) (i : Nat)
    (hf : sectorMatches md5 bd data i = false) :
    scanStep md5 bd addr data image st i =
      { st with
        newAddr := if st.newLen = 0 then addr + i * kFlashSectorSize else st.newAddr
        newLen := st.newLen + sectorLen data.length i
        newImageSize := st.newImageSize + sectorLen data.length i } := by
  unfold sectorMatches at hf
  rw [decide_eq_false_iff_not] at hf
  unfold sectorLen at hf
  simp only [scanStep]
  rw [if_neg hf]
  rfl

/-- One more iteration of the sector walk. -/
theorem scanState_succ (md5 : List Nat → List Nat) (bd : List (List Nat))
    (addr : Nat) (image : Image) (n : Nat) :
    scanState md5 bd addr image (n + 1) =
      scanStep md5 bd addr image.data image (scanState md5 bd addr image n) n := by
  unfold scanState
  rw [List.range_succ, List.foldl_append, List.foldl_cons, List.foldl_nil]

/-- The scan's byte counter is the total size of the differing sectors
seen so far. -/
theorem scanState_newImageSize (md5 : List Nat → List Nat) (bd : List (List Nat))
    (addr : Nat) (image : Image) :
    ∀ n, (scanState md5 bd addr image n).newImageSize =
      ∑ i ∈ Finset.range n,
        (if sectorMatches md5 bd image.data i = true then 0
         else sectorLen image.data.length i) := by
  intro n
  induction n with
  | zero => rfl
  | succ n ih =>
    rw [scanState_succ, Finset.sum_range_succ, ← ih]
    rcases hf : sectorMatches md5 bd image.data n with _ | _
    · rw [scanStep_of_diff md5 bd addr image.data image _ n hf,
        if_neg (by decide : ¬ (false = true))]
    · rw [scanStep_of_match md5 bd addr image.data image _ n hf, if_pos rfl]
      by_cases h : 0 < (scanState md5 bd addr image n).newLen
      · rw [if_pos h]
        exact (Nat.add_zero _).symm
      · rw [if_neg h]
        exact (Nat.add_zero _).symm

/-- The scan invariant of the dedup sector walk: after `n` sectors the
pending run and the flushed sub-images are exactly described by the runs
of differing sectors among `0..n-1`. -/
theorem scanState_runs (md5 : List Nat → List Nat) (bd : List (List Nat))
    (addr : Nat) (image : Image) :
    ∀ n, n ≤ numBlocks image.data.length →
      (match specRunsRev (sectorMatches md5 bd image.data) n with
       | [] =>
         (scanState md5 bd addr image n).newLen = 0 ∧
         (scanState md5 bd addr image n).newImages = []
       | (s, e) :: rest =>
         if e = n then
           (scanState md5 bd addr image n).newAddr = addr + s * kFlashSectorSize ∧
           (scanState md5 bd addr image n).newLen =
             runBytes image.data.length s e ∧
           (scanState md5 bd addr image n).newImages =
             rest.reverse.map (runImage addr image)
         else
           (scanState md5 bd addr image n).newLen = 0 ∧
           (scanState md5 bd addr image n).newImages =
             ((s, e) :: rest).reverse.map (runImage addr image)) := by
  intro n
  induction n with
  | zero =>
    intro _
    show (scanState md5 bd addr image 0).newLen = 0 ∧
      (scanState md5 bd addr image 0).newImages = []
    exact ⟨rfl, rfl⟩
  | succ n ih =>
    intro hn
    have ih' := ih (Nat.le_of_succ_le hn)
    rcases hf : sectorMatches md5 bd image.data n with _ | _
    · rw [specRunsRev_succ_of_diff _ n hf]
      rw [scanState_succ, scanStep_of_diff md5 bd addr image.data image _ n hf]
      rcases hrev : specRunsRev (sectorMatches md5 bd image.data) n
        with _ | ⟨⟨s, e⟩, rest⟩
      · rw [hrev] at ih'
        dsimp only at ih'
        obtain ⟨h1, h2⟩ := ih'
        dsimp only
        rw [if_pos rfl]
        refine ⟨?_, ?_, ?_⟩
        · dsimp only
          rw [if_pos h1]
        · dsimp only
          rw [h1, runBytes_single, Nat.zero_add]
        · dsimp only
          rw [h2]
          rfl
      · rw [hrev] at ih'
        dsimp only at ih' ⊢
        have hse := specRunsRev_lt_le (sectorMatches md5 bd image.data) n (s, e)
          (by rw [hrev]; exact List.mem_cons_self _ _)
        simp only at hse
        by_cases he : e = n
        · rw [if_pos he] at ih'
          obtain ⟨hA, hL, hI⟩ := ih'
          have hpos : 0 < (scanState md5 bd addr image n).newLen := by
            rw [hL]
            exact runBytes_pos image.data.length s e hse.1 (by omega)
          rw [if_pos he]
          dsimp only
          rw [if_pos rfl]
          refine ⟨?_, ?_, ?_⟩
          · dsimp only
            rw [if_neg (by omega)]
            exact hA
          · dsimp only
            rw [hL, he, runBytes_succ image.data.length s n (by omega)]
          · dsimp only
            exact hI
        · rw [if_neg he] at ih'
          obtain ⟨hL, hI⟩ := ih'
          rw [if_neg he]
          dsimp only
          rw [if_pos rfl]
          refine ⟨?_, ?_, ?_⟩
          · dsimp only
            rw [if_pos hL]
          · dsimp only
            rw [hL, runBytes_single, Nat.zero_add]
          · dsimp only
            exact hI
    · rw [specRunsRev_succ_of_match _ n hf]
      rw [scanState_succ, scanStep_of_match md5 bd addr image.data image _ n hf]
      rcases hrev : specRunsRev (sectorMatches md5 bd image.data) n
        with _ | ⟨⟨s, e⟩, rest⟩
      · rw [hrev] at ih'
        dsimp only at ih'
        obtain ⟨h1, h2⟩ := ih'
        dsimp only
        rw [if_neg (by omega)]
        exact ⟨h1, h2⟩
      · rw [hrev] at ih'
        dsimp only at ih' ⊢
        have hse := specRunsRev_lt_le (sectorMatches md5 bd image.data) n (s, e)
          (by rw [hrev]; exact List.mem_cons_self _ _)
        simp only at hse
        by_cases he : e = n
        · rw [if_pos he] at ih'
          obtain ⟨hA, hL, hI⟩ := ih'
          have hpos : 0 < (scanState md5 bd addr image n).newLen := by
            rw [hL]
            exact runBytes_pos image.data.length s e hse.1 (by omega)
          rw [if_neg (by omega), if_pos hpos]
          refine ⟨rfl, ?_⟩
          dsimp only
          rw [hI, hA, hL, subImage_eq_runImage]
          rw [List.reverse_cons, List.map_append, List.map_cons, List.map_nil]
        · rw [if_neg he] at ih'
          obtain ⟨hL, hI⟩ := ih'
          rw [if_neg (by omega), if_neg (by omega)]
          exact ⟨hL, hI⟩

/-- The runs of `specRunsRev` are listed in strictly descending,
non-overlapping order. -/
theorem specRunsRev_chain (f : Nat → Bool) :
    ∀ n, (specRunsRev f n).Chain' (fun a b => b.2 ≤ a.1) := by
  intro n
  induction n with
  | zero => exact List.chain'_nil
  | succ n ih =>
    rcases hfn : f n with _ | _
    · rw [specRunsRev_succ_of_diff f n hfn]
      rcases hrev : specRunsRev f n with _ | ⟨⟨s, e⟩, rest⟩
      · exact List.chain'_singleton _
      · dsimp only
        rw [hrev] at ih
        by_cases he : e = n
        · rw [if_pos he]
          rcases rest with _ | ⟨b, rest'⟩
          · exact List.chain'_singleton _
          · rw [List.chain'_cons] at ih ⊢
            exact ⟨ih.1, ih.2⟩
        · rw [if_neg he]
          rw [List.chain'_cons]
          have hse := specRunsRev_lt_le f n (s, e)
            (by rw [hrev]; exact List.mem_cons_self _ _)
          simp only at hse
          refine ⟨?_, ih⟩
          show e ≤ n
          omega
    · rw [specRunsRev_succ_of_match f n hfn]
      exact ih

/-- Splitting a sum over a Boolean test. -/
theorem sum_if_split (f : Nat → Bool) (g : Nat → Nat) (N : Nat) :
    ((∑ i ∈ Finset.range N, if f i = true then g i else 0) +
     ∑ i ∈ Finset.range N, if f i = true then 0 else g i) =
      ∑ i ∈ Finset.range N, g i := by
  rw [← Finset.sum_add_distrib]
  apply Finset.sum_congr rfl
  intro i _
  by_cases h : f i = true
  · rw [if_pos h, if_pos h, Nat.add_zero]
  · rw [if_neg h, if_neg h, Nat.zero_add]

/-- After the full walk, the flushed sub-images are exactly the runs of
differing sectors, in ascending order. -/
theorem dedupImage_flush (md5 : List Nat → List Nat) (bd : List (List Nat))
    (addr : Nat) (image : Image) :
    (if 0 < (scanState md5 bd addr image (numBlocks image.data.length)).newLen then
       (scanState md5 bd addr image (numBlocks image.data.length)).newImages ++
         [subImage image addr image.data
           (scanState md5 bd addr image (numBlocks image.data.length)).newAddr
           (scanState md5 bd addr image (numBlocks image.data.length)).newLen]
     else (scanState md5 bd addr image (numBlocks image.data.length)).newImages) =
      (specRuns (sectorMatches md5 bd image.data)
        (numBlocks image.data.length)).map (runImage addr image) := by
  have hinv := scanState_runs md5 bd addr image (numBlocks image.data.length)
    (le_refl _)
  unfold specRuns
  rcases hrev : specRunsRev (sectorMatches md5 bd image.data)
      (numBlocks image.data.length) with _ | ⟨⟨s, e⟩, rest⟩
  · rw [hrev] at hinv
    dsimp only at hinv
    obtain ⟨h1, h2⟩ := hinv
    rw [if_neg (by omega), h2]
    rfl
  · rw [hrev] at hinv
    dsimp only at hinv
    have hse := specRunsRev_lt_le (sectorMatches md5 bd image.data)
      (numBlocks image.data.length) (s, e)
      (by rw [hrev]; exact List.mem_cons_self _ _)
    simp only at hse
    by_cases he : e = numBlocks image.data.length
    · rw [if_pos he] at hinv
      obtain ⟨hA, hL, hI⟩ := hinv
      have hpos : 0 < (scanState md5 bd addr image
          (numBlocks image.data.length)).newLen := by
        rw [hL]
        exact runBytes_pos image.data.length s e hse.1 (by omega)
      rw [if_pos hpos, hI, hA, hL, subImage_eq_runImage]
      rw [List.reverse_cons, List.map_append, List.map_cons, List.map_nil]
    · rw [if_neg he] at hinv
      obtain ⟨hL, hI⟩ := hinv
      rw [if_neg (by omega), hI]

/-- `dedupImage` keeps the fragments exactly when at least
`kFlashBlockSize` bytes match the device, and the fragments are the runs
of differing sectors. -/
theorem dedupImage_spec (md5 : List Nat → List Nat) (bd : List (List Nat))
    (addr : Nat) (image : Image) :
    dedupImage md5 bd addr image =
      if kFlashBlockSize ≤ ∑ i ∈ Finset.range (numBlocks image.data.length),
          (if sectorMatches md5 bd image.data i = true
           then sectorLen image.data.length i else 0)
      then (specRuns (sectorMatches md5 bd image.data)
             (numBlocks image.data.length)).map (runImage addr image)
      else [(addr, image)] := by
  have hsize := scanState_newImageSize md5 bd addr image
    (numBlocks image.data.length)
  have hsplit := sum_if_split (sectorMatches md5 bd image.data)
    (sectorLen image.data.length) (numBlocks image.data.length)
  have htot := sum_sectorLen (numBlocks image.data.length) image.data.length rfl
  have hcond : image.data.length -
      (scanState md5 bd addr image (numBlocks image.data.length)).newImageSize =
      ∑ i ∈ Finset.range (numBlocks image.data.length),
        (if sectorMatches md5 bd image.data i = true
         then sectorLen image.data.length i else 0) := by
    omega
  have hdef : dedupImage md5 bd addr image =
      (if kFlashBlockSize ≤ image.data.length -
          (scanState md5 bd addr image (numBlocks image.data.length)).newImageSize
       then (if 0 < (scanState md5 bd addr image
                (numBlocks image.data.length)).newLen then
               (scanState md5 bd addr image
                 (numBlocks image.data.length)).newImages ++
                 [subImage image addr image.data
                   (scanState md5 bd addr image
                     (numBlocks image.data.length)).newAddr
                   (scanState md5 bd addr image
                     (numBlocks image.data.length)).newLen]
             else (scanState md5 bd addr image
                 (numBlocks image.data.length)).newImages)
       else [(addr, image)]) := rfl
  rw [hdef, hcond, dedupImage_flush]

/-- **C1.** Dedup planning: for a single image whose digest query
returns per-sector digests `bd`, with `f i` the source's skip test
(device digest of sector `i` equals the image's own MD5 of it) and
`N` the image's sector count: when the skipped bytes reach
`kFlashBlockSize` the plan is exactly one sub-image per ascending
contiguous run of differing (non-skipped) sectors, each at its own
address `addr + start·4096`; below the threshold the original undivided
image is kept.  The runs cover exactly the non-matching sectors below
`N`, are nonempty, end by `N`, and are ascending and non-overlapping. -/
theorem C1_dedupImages_plan (md5 : List Nat → List Nat) (bd : List (List Nat))
    (d : List Nat) (digestFn : Nat → Nat → Nat → Except Status DigestResult)
    (addr : Nat) (image : Image)
    (hq : digestFn addr image.data.length kFlashSectorSize =
      Except.ok ⟨d, bd⟩) :
    (kFlashBlockSize ≤ ∑ i ∈ Finset.range (numBlocks image.data.length),
        (if sectorMatches md5 bd image.data i = true
         then sectorLen image.data.length i else 0) →
      dedupImages digestFn md5 [(addr, image)] =
        (specRuns (sectorMatches md5 bd image.data)
          (numBlocks image.data.length)).map (runImage addr image)) ∧
    ((∑ i ∈ Finset.range (numBlocks image.data.length),
        (if sectorMatches md5 bd image.data i = true
         then sectorLen image.data.length i else 0)) < kFlashBlockSize →
      dedupImages digestFn md5 [(addr, image)] = [(addr, image)]) ∧
    (∀ i, (∃ r ∈ specRuns (sectorMatches md5 bd image.data)
            (numBlocks image.data.length), r.1 ≤ i ∧ i < r.2) ↔
          (i < numBlocks image.data.length ∧
           sectorMatches md5 bd image.data i = false)) ∧
    (∀ r ∈ specRuns (sectorMatches md5 bd image.data)
        (numBlocks image.data.length),
      r.1 < r.2 ∧ r.2 ≤ numBlocks image.data.length) ∧
    (specRuns (sectorMatches md5 bd image.data)
        (numBlocks image.data.length)).Chain' (fun a b => a.2 ≤ b.1) := by
  have hloop : dedupLoop digestFn md5 [(addr, image)] =
      some (dedupImage md5 bd addr image) := by
    simp only [dedupLoop, hq, List.append_nil]
  have hsingle : dedupImages digestFn md5 [(addr, image)] =
      dedupImage md5 bd addr image := by
    unfold dedupImages
    rw [hloop]
  have hded := dedupImage_spec md5 bd addr image
  refine ⟨?_, ?_, ?_, ?_, ?_⟩
  · intro h
    rw [hsingle, hded, if_pos h]
  · intro h
    rw [hsingle, hded, if_neg (by omega)]
  · intro i
    unfold specRuns
    simp only [List.mem_reverse]
    exact specRunsRev_covers (sectorMatches md5 bd image.data) _ i
  · intro r hr
    unfold specRuns at hr
    rw [List.mem_reverse] at hr
    exact specRunsRev_lt_le (sectorMatches md5 bd image.data) _ r hr
  · unfold specRuns
    rw [List.chain'_reverse]
    exact specRunsRev_chain (sectorMatches md5 bd image.data) _

/-- Witness for C1: a one-sector image whose sector differs from the
device digest is kept whole (one sector is far below the threshold),
and sector 0 is covered by the runs exactly because it differs. -/
theorem C1_dedupImages_plan_witness :
    dedupImages (fun _ _ _ => Except.ok ⟨[7], [[9]]⟩) (fun l => l)
        [(0, ⟨0, [5], []⟩)] = [(0, (⟨0, [5], []⟩ : Image))] ∧
    ((∃ r ∈ specRuns (sectorMatches (fun l => l) [[9]] [5]) (numBlocks 1),
        r.1 ≤ 0 ∧ 0 < r.2) ↔
      (0 < numBlocks 1 ∧ sectorMatches (fun l => l) [[9]] [5] 0 = false)) := by
  have h := C1_dedupImages_plan (fun l => l) [[9]] [7]
    (fun _ _ _ => Except.ok ⟨[7], [[9]]⟩) 0 ⟨0, [5], []⟩ rfl
  exact ⟨h.2.1 (by decide), h.2.2.1 0⟩

end ESP8266
